import Mathlib

/-!
# Verification of the Javy Node.js host bridge

Shallow embedding of the host-side bridge that runs a Javy-compiled guest
WebAssembly module against the QuickJS provider module under Node's WASI
implementation, communicating through temporary files wired to the sandbox's
standard streams.

The repository contains three variants of the same bridge script:
* `src/unnamed/part_000` — `runJavy`: reactor convention
  (`wasi.initialize(provider)` then `instance.exports._start()`), guest
  instantiated against exactly `{ javy_quickjs_provider_v1: provider.exports }`;
* `src/host.mjs` — `run`: command convention (`wasi.start(instance)`), guest
  instantiated against `{ ...wasiImports, javy_quickjs_provider_v1: ... }`;
* `src/unnamed/part_001` — `run`: plain WASI module, no provider, input
  written inside the `try` block.

All three share `readOutput` (read file, trim, `JSON.parse` with raw-text
fallback) and the `if (err) throw new Error(err)` application-error check on
the decoded stderr value.

`JSON.parse` / `JSON.stringify` / `String.prototype.trim` are platform
builtins; they are embedded below as executable functions over a JSON value
type whose numbers are exact decimals (integer mantissa and a power-of-ten
exponent), which represents every numeral `JSON.stringify` emits.
-/

namespace JavyBridge

/-! ## Characters and digits -/

/-- The decimal digit character for `d` (meaningful for `d < 10`). -/
def digitChar (d : Nat) : Char := Char.ofNat (48 + d)

/-- Numeric value of a decimal digit character. -/
def charDigit (c : Char) : Nat := c.toNat - 48

/-- Decimal digit predicate, as `JSON.parse` uses for number tokens. -/
def isDigitC (c : Char) : Bool := 48 ≤ c.toNat && c.toNat ≤ 57

/-- Whitespace accepted between JSON tokens by `JSON.parse`:
space, tab, line feed, carriage return. -/
def isJsonWsC (c : Char) : Bool :=
  c.toNat == 32 || c.toNat == 9 || c.toNat == 10 || c.toNat == 13

/-- Whitespace removed by `String.prototype.trim`: the JSON set plus
vertical tab, form feed, no-break space and the BOM. -/
def isJsWsC (c : Char) : Bool :=
  isJsonWsC c || c.toNat == 11 || c.toNat == 12 || c.toNat == 160 ||
    c.toNat == 65279

/-- Little-endian digit characters of `n`; `fuel` bounds the recursion and
any `fuel ≥ n` is enough. -/
def natToDigitsAux : Nat → Nat → List Char
  | 0, _ => []
  | fuel + 1, n => if n = 0 then [] else digitChar (n % 10) :: natToDigitsAux fuel (n / 10)

/-- Decimal digit characters of `n`, most significant first, as
`JSON.stringify` prints a non-negative integer. -/
def natToChars (n : Nat) : List Char :=
  if n = 0 then ['0'] else (natToDigitsAux (n + 1) n).reverse

/-- Decimal digit characters of an integer, with a leading minus sign when
negative. -/
def intToChars (i : Int) : List Char :=
  if i < 0 then '-' :: natToChars i.natAbs else natToChars i.natAbs

/-- Fold a digit-character list onto an accumulator, most significant first. -/
def digitsValFrom (acc : Nat) (l : List Char) : Nat :=
  l.foldl (fun a c => a * 10 + charDigit c) acc

/-- Numeric value of a digit-character list, most significant first. -/
def digitsVal (l : List Char) : Nat := digitsValFrom 0 l

/-! ## The JSON value model -/

/-- Exact decimal: the value `mantissa * 10 ^ (- exponent)`.  Every numeral
`JSON.stringify` can emit denotes such a decimal exactly. -/
structure JsonNumber where
  mantissa : Int
  exponent : Nat
deriving DecidableEq

mutual
/-- A structured value crossing the host/sandbox boundary: the result of
`JSON.parse`, the argument of `JSON.stringify`. -/
inductive JsonValue where
  | null
  | bool (b : Bool)
  | num (n : JsonNumber)
  | str (s : String)
  | arr (a : JsonArray)
  | obj (o : JsonObject)
/-- Elements of a JSON array, in order. -/
inductive JsonArray where
  | nil
  | cons (hd : JsonValue) (tl : JsonArray)
/-- Members of a JSON object, in insertion order. -/
inductive JsonObject where
  | nil
  | cons (key : String) (val : JsonValue) (tl : JsonObject)
end

/-! ## Serialization (`JSON.stringify`) -/

/-- Hexadecimal digit character for `d < 16`, lower case. -/
def hexDigit (d : Nat) : Char := if d < 10 then digitChar d else Char.ofNat (87 + d)

/-- How `JSON.stringify` renders one character inside a string literal:
quote and backslash get escaped, the five short control escapes are used
where available, remaining control characters become `\u00XX`, and
everything else passes through. -/
def escapeChar (c : Char) : List Char :=
  if c == '"' then ['\\', '"']
  else if c == '\\' then ['\\', '\\']
  else if c == '\x08' then ['\\', 'b']
  else if c == '\x09' then ['\\', 't']
  else if c == '\x0a' then ['\\', 'n']
  else if c == '\x0c' then ['\\', 'f']
  else if c == '\x0d' then ['\\', 'r']
  else if c.toNat < 32 then ['\\', 'u', '0', '0', hexDigit (c.toNat / 16), hexDigit (c.toNat % 16)]
  else [c]

/-- Escape every character of a string body. -/
def escBody : List Char → List Char
  | [] => []
  | c :: t => escapeChar c ++ escBody t

/-- A JSON string literal: quote, escaped body, quote. -/
def serStr (s : String) : List Char := '"' :: (escBody s.data ++ ['"'])

/-- The digit string of `m` padded with leading zeros to at least `e + 1`
digits. -/
def padDigits (m : Nat) (e : Nat) : List Char :=
  List.replicate (e + 1 - (natToChars m).length) '0' ++ natToChars m

/-- Print the positive decimal `m * 10 ^ (- e)` for `e ≠ 0`: pad the digit
string of `m` with leading zeros to at least `e + 1` digits, then insert the
decimal point `e` digits from the right. -/
def serPosDec (m : Nat) (e : Nat) : List Char :=
  (padDigits m e).take ((padDigits m e).length - e) ++
    '.' :: (padDigits m e).drop ((padDigits m e).length - e)

/-- Print a `JsonNumber` the way `JSON.stringify` prints the corresponding
double: plain integer when the exponent is zero, otherwise a decimal-point
form with exactly `exponent` fraction digits. -/
def serNum (n : JsonNumber) : List Char :=
  if n.exponent = 0 then intToChars n.mantissa
  else (if n.mantissa < 0 then ['-'] else []) ++ serPosDec n.mantissa.natAbs n.exponent

mutual
/-- Compact JSON serialization of a value, as `JSON.stringify` emits it
(no whitespace anywhere). -/
def serVal : JsonValue → List Char
  | .null => "null".data
  | .bool true => "true".data
  | .bool false => "false".data
  | .num n => serNum n
  | .str s => serStr s
  | .arr .nil => ['[', ']']
  | .arr (.cons v tl) => '[' :: (serVal v ++ serArrTail tl) ++ [']']
  | .obj .nil => ['{', '}']
  | .obj (.cons k v tl) => '{' :: (serStr k ++ ':' :: serVal v ++ serObjTail tl) ++ ['}']
/-- Serialization of the remaining array elements, each preceded by a comma. -/
def serArrTail : JsonArray → List Char
  | .nil => []
  | .cons v tl => ',' :: serVal v ++ serArrTail tl
/-- Serialization of the remaining object members, each preceded by a comma. -/
def serObjTail : JsonObject → List Char
  | .nil => []
  | .cons k v tl => ',' :: serStr k ++ ':' :: serVal v ++ serObjTail tl
end

/-- `JSON.stringify` as the bridge uses it on the input value. -/
def jsonStringify (v : JsonValue) : String := ⟨serVal v⟩

/-! ## Parsing (`JSON.parse`) -/

/-- Skip inter-token whitespace, as `JSON.parse` does. -/
def skipWs : List Char → List Char
  | [] => []
  | c :: r => if isJsonWsC c then skipWs r else c :: r

/-- Consume an exact literal suffix (the tail of `null` / `true` / `false`). -/
def expectLit : List Char → List Char → Option (List Char)
  | [], cs => some cs
  | _ :: _, [] => none
  | l :: lt, c :: cs => if c == l then expectLit lt cs else none

/-- Value of one hexadecimal digit character, either case. -/
def hexVal (c : Char) : Option Nat :=
  if 48 ≤ c.toNat && c.toNat ≤ 57 then some (c.toNat - 48)
  else if 97 ≤ c.toNat && c.toNat ≤ 102 then some (c.toNat - 87)
  else if 65 ≤ c.toNat && c.toNat ≤ 70 then some (c.toNat - 55)
  else none

/-- Read four hexadecimal digits of a `\uXXXX` escape. -/
def parseHex4 : List Char → Option (Nat × List Char) := fun cs =>
  match cs with
  | h1 :: h2 :: h3 :: h4 :: r =>
    match hexVal h1, hexVal h2, hexVal h3, hexVal h4 with
    | some a, some b, some c, some d => some (((a * 16 + b) * 16 + c) * 16 + d, r)
    | _, _, _, _ => none
  | _ => none

/-- Decode a `\uXXXX` escape after the `\u`, combining a surrogate pair
into one scalar value as `JSON.parse` does; a lone surrogate is rejected
since it denotes no Unicode scalar value. -/
def parseUEscape (cs : List Char) : Option (Char × List Char) :=
  match parseHex4 cs with
  | some (code, r3) =>
    if code < 55296 || 57343 < code then some (Char.ofNat code, r3)
    else if 56319 < code then none
    else
      match r3 with
      | b1 :: b2 :: rest =>
        if b1 == '\\' && b2 == 'u' then
          match parseHex4 rest with
          | some (code2, r4) =>
            if 56320 ≤ code2 && code2 ≤ 57343 then
              some (Char.ofNat (65536 + (code - 55296) * 1024 + (code2 - 56320)), r4)
            else none
          | none => none
        else none
      | _ => none
  | none => none

/-- The character denoted by a single-character escape sequence. -/
def escCharFor (e : Char) : Option Char :=
  if e == '"' then some '"'
  else if e == '\\' then some '\\'
  else if e == '/' then some '/'
  else if e == 'b' then some '\x08'
  else if e == 'f' then some '\x0c'
  else if e == 'n' then some '\x0a'
  else if e == 'r' then some '\x0d'
  else if e == 't' then some '\x09'
  else none

/-- Parse a JSON string body after the opening quote, unescaping as
`JSON.parse` does.  `acc` holds the characters read so far, in reverse;
`fuel` bounds the recursion and any fuel above the input length is enough.
Raw control characters are rejected, as `JSON.parse` rejects them. -/
def parseStringBody : Nat → List Char → List Char → Option (String × List Char)
  | 0, _, _ => none
  | _ + 1, _, [] => none
  | fuel + 1, acc, c :: r =>
    if c == '"' then some (⟨acc.reverse⟩, r)
    else if c == '\\' then
      match r with
      | [] => none
      | e :: r2 =>
        if e == 'u' then
          match parseUEscape r2 with
          | some (ch, r3) => parseStringBody fuel (ch :: acc) r3
          | none => none
        else
          match escCharFor e with
          | some ch => parseStringBody fuel (ch :: acc) r2
          | none => none
    else if c.toNat < 32 then none
    else parseStringBody fuel (c :: acc) r

/-- Build the signed decimal `± m0 * 10 ^ (- e0)`. -/
def mkJsonNumber (neg : Bool) (m0 : Nat) (e0 : Nat) : JsonNumber :=
  ⟨if neg then -(m0 : Int) else (m0 : Int), e0⟩

/-- Fold an exponent-part value into the decimal read so far. -/
def applyExp (neg : Bool) (m0 e0 : Nat) (expNeg : Bool) (x : Nat) : JsonNumber :=
  if expNeg then mkJsonNumber neg m0 (e0 + x)
  else if e0 ≤ x then mkJsonNumber neg (m0 * 10 ^ (x - e0)) 0
  else mkJsonNumber neg m0 (e0 - x)

/-- Parse the optional exponent part of a JSON numeral. -/
def parseExpTail (neg : Bool) (m0 e0 : Nat) : List Char → Option (JsonNumber × List Char)
  | [] => some (mkJsonNumber neg m0 e0, [])
  | c :: r =>
    if c == 'e' || c == 'E' then
      let (expNeg, r2) : Bool × List Char :=
        match r with
        | c2 :: r3 => if c2 == '+' then (false, r3) else if c2 == '-' then (true, r3) else (false, r)
        | [] => (false, r)
      let xds := r2.takeWhile isDigitC
      if xds.isEmpty then none
      else some (applyExp neg m0 e0 expNeg (digitsVal xds), r2.dropWhile isDigitC)
    else some (mkJsonNumber neg m0 e0, c :: r)

/-- Parse the optional fraction part, then the optional exponent part. -/
def parseNumTail (neg : Bool) (ids : List Char) : List Char → Option (JsonNumber × List Char)
  | [] => some (mkJsonNumber neg (digitsVal ids) 0, [])
  | c :: r =>
    if c == '.' then
      let fds := r.takeWhile isDigitC
      if fds.isEmpty then none
      else
        parseExpTail neg (digitsVal ids * 10 ^ fds.length + digitsVal fds) fds.length
          (r.dropWhile isDigitC)
    else parseExpTail neg (digitsVal ids) 0 (c :: r)

/-- Parse the digits-and-beyond part of a numeral, after the optional sign:
integer digits with no leading zero, optional fraction, optional exponent. -/
def parseNumBody (neg : Bool) (cs1 : List Char) : Option (JsonNumber × List Char) :=
  let ids := cs1.takeWhile isDigitC
  if ids.isEmpty then none
  else if 1 < ids.length && ids.head? == some '0' then none
  else parseNumTail neg ids (cs1.dropWhile isDigitC)

/-- Parse a JSON numeral per the `JSON.parse` grammar: optional minus,
integer digits with no leading zero, optional fraction, optional exponent. -/
def parseNumber (cs : List Char) : Option (JsonNumber × List Char) :=
  match cs with
  | c :: r => if c == '-' then parseNumBody true r else parseNumBody false cs
  | [] => parseNumBody false cs

mutual
/-- Parse one JSON value after skipping leading whitespace; `fuel` bounds
the nesting recursion (any fuel at least twice the consumed length works). -/
def parseValue : Nat → List Char → Option (JsonValue × List Char)
  | 0, _ => none
  | fuel + 1, cs =>
    match skipWs cs with
    | [] => none
    | c :: r =>
      if c == 'n' then (expectLit ['u', 'l', 'l'] r).map fun r2 => (.null, r2)
      else if c == 't' then (expectLit ['r', 'u', 'e'] r).map fun r2 => (.bool true, r2)
      else if c == 'f' then (expectLit ['a', 'l', 's', 'e'] r).map fun r2 => (.bool false, r2)
      else if c == '"' then (parseStringBody (r.length + 1) [] r).map fun p => (.str p.fst, p.snd)
      else if c == '[' then (parseArrayBody fuel r).map fun p => (.arr p.fst, p.snd)
      else if c == '{' then (parseObjBody fuel r).map fun p => (.obj p.fst, p.snd)
      else if c == '-' || isDigitC c then (parseNumber (c :: r)).map fun p => (.num p.fst, p.snd)
      else none
/-- Parse an array body after the opening bracket: empty, or first element
then the comma-separated rest. -/
def parseArrayBody : Nat → List Char → Option (JsonArray × List Char)
  | 0, _ => none
  | fuel + 1, cs =>
    match skipWs cs with
    | [] => none
    | c :: r =>
      if c == ']' then some (.nil, r)
      else
        match parseValue fuel (c :: r) with
        | some (v, r1) =>
          match parseMoreItems fuel r1 with
          | some (tl, r2) => some (.cons v tl, r2)
          | none => none
        | none => none
/-- After an array element: a closing bracket, or a comma and more elements. -/
def parseMoreItems : Nat → List Char → Option (JsonArray × List Char)
  | 0, _ => none
  | fuel + 1, cs =>
    match skipWs cs with
    | [] => none
    | c :: r =>
      if c == ']' then some (.nil, r)
      else if c == ',' then
        match parseValue fuel r with
        | some (v, r1) =>
          match parseMoreItems fuel r1 with
          | some (tl, r2) => some (.cons v tl, r2)
          | none => none
        | none => none
      else none
/-- Parse an object body after the opening brace: empty, or the first member
key's opening quote then the rest. -/
def parseObjBody : Nat → List Char → Option (JsonObject × List Char)
  | 0, _ => none
  | fuel + 1, cs =>
    match skipWs cs with
    | [] => none
    | c :: r =>
      if c == '}' then some (.nil, r)
      else if c == '"' then parseMember fuel r
      else none
/-- Parse one object member starting just after the key's opening quote,
then the remaining members. -/
def parseMember : Nat → List Char → Option (JsonObject × List Char)
  | 0, _ => none
  | fuel + 1, cs =>
    match parseStringBody (cs.length + 1) [] cs with
    | some (k, r1) =>
      match skipWs r1 with
      | c :: r2 =>
        if c == ':' then
          match parseValue fuel r2 with
          | some (v, r3) =>
            match parseMoreMembers fuel r3 with
            | some (tl, r4) => some (.cons k v tl, r4)
            | none => none
          | none => none
        else none
      | [] => none
    | none => none
/-- After an object member: a closing brace, or a comma and more members. -/
def parseMoreMembers : Nat → List Char → Option (JsonObject × List Char)
  | 0, _ => none
  | fuel + 1, cs =>
    match skipWs cs with
    | [] => none
    | c :: r =>
      if c == '}' then some (.nil, r)
      else if c == ',' then
        match skipWs r with
        | c2 :: r2 => if c2 == '"' then parseMember fuel r2 else none
        | [] => none
      else none
end

/-- A rest-input is safe after a numeral when its first character cannot
extend the numeral: not a digit, not a decimal point, not an exponent
marker.  Every delimiter the serializer can put after a number satisfies
this. -/
def SafeRest (r : List Char) : Prop :=
  ∀ c, r.head? = some c → (isDigitC c || c == '.' || c == 'e' || c == 'E') = false

/-- `JSON.parse`: one value, with only whitespace allowed around it; `none`
models a thrown `SyntaxError`. -/
def jsonParse (s : String) : Option JsonValue :=
  match parseValue (2 * s.data.length + 2) s.data with
  | some (v, r) => if (skipWs r).isEmpty then some v else none
  | none => none

/-! ## `readOutput` and truthiness -/

/-- `String.prototype.trim` on the character list. -/
def trimChars (l : List Char) : List Char :=
  ((l.dropWhile isJsWsC).reverse.dropWhile isJsWsC).reverse

/-- `String.prototype.trim`. -/
def trimString (s : String) : String := ⟨trimChars s.data⟩

/-- `readOutput` from all three variants: read the channel contents, trim,
try `JSON.parse`, and on a parse failure return the trimmed text itself. -/
def readOutput (content : String) : JsonValue :=
  match jsonParse (trimString content) with
  | some v => v
  | none => .str (trimString content)

/-- JavaScript truthiness of a decoded value, as tested by
`if (err) throw new Error(err)`: `null`, `false`, zero and the empty string
are falsy; arrays and objects are always truthy. -/
def JsonValue.truthy : JsonValue → Bool
  | .null => false
  | .bool b => b
  | .num n => !(n.mantissa == 0)
  | .str s => !(s == "")
  | .arr _ => true
  | .obj _ => true

/-! ## The invocation models

Each variant of the bridge is a function from a `Behavior` — the parameters
the host cannot control: what the guest declares as imports and whether its
execution traps, plus the bytes it leaves on the output and error channels —
to the invocation's outcome together with the ordered trace of the
host-side effects it performs. -/

/-- The three ephemeral byte channels standing in for the standard streams. -/
inductive Chan where
  | stdin
  | stdout
  | stderr
deriving DecidableEq

/-- One host-side effect of an invocation, in program order. -/
inductive Event where
  | writeInput (content : String)
  | openChan (c : Chan)
  | compileGuest
  | compileProvider
  | instProvider
  | instGuest
  | initProvider
  | guestStart
  | wasiStart
  | readChan (c : Chan)
  | closeChan (c : Chan)

/-- What an invocation delivers to its caller. `noResult` is the JavaScript
`undefined` that escapes when a `catch` block falls through without
rethrowing; `caught` is `part_001`'s catch-all conversion of any exception
into `Error(stderr text)`. -/
inductive RunOutcome where
  | success (v : JsonValue)
  | appError (v : JsonValue)
  | sandboxFault (m : Option JsonValue)
  | linkError
  | caught (v : JsonValue)
  | noResult

/-- The fixed namespace identifier the guest imports the provider under. -/
def providerNamespace : String := "javy_quickjs_provider_v1"

/-- The namespace `wasi.getImportObject()` provides under WASI preview 1. -/
def wasiNamespace : String := "wasi_snapshot_preview1"

/-- `WebAssembly.instantiate` link check: every `(namespace, name)` import
of the module must be found in the import object, else a `LinkError` (or
`TypeError`) is thrown before any sandbox code runs. -/
def linkOk (importObj : List (String × List String)) (imports : List (String × String)) : Bool :=
  imports.all fun i =>
    match importObj.lookup i.fst with
    | some exps => exps.contains i.snd
    | none => false

/-- The environment of one `runJavy` invocation (`src/unnamed/part_000`). -/
structure Behavior where
  input : JsonValue
  guestImports : List (String × String)
  providerExports : List String
  initTraps : Bool
  startTraps : Bool
  stdoutContent : String
  stderrContent : String

/-- The import object `runJavy` instantiates the guest against:
exactly the provider entry. -/
def runJavyImportObject (providerExports : List String) : List (String × List String) :=
  [(providerNamespace, providerExports)]

/-- The `catch` branch of `runJavy` for a `WebAssembly.RuntimeError`:
re-read stderr; throw `Error(message)` when the decoded value is truthy,
otherwise rethrow the trap itself. -/
def trapOutcome (stderrContent : String) : RunOutcome :=
  let m := readOutput stderrContent
  if m.truthy then .sandboxFault (some m) else .sandboxFault none

/-- `runJavy` from `src/unnamed/part_000`: write the serialized input, open
the three channels, instantiate provider (against WASI imports) and guest
(against the provider's exports only), run the reactor sequence
`wasi.initialize(provider); instance.exports._start()`, decode both
channels, apply the `if (err) throw` check; a `finally` closes all three
handles on every path. -/
def runJavy (b : Behavior) : RunOutcome × List Event :=
  let pre : List Event :=
    [.writeInput (jsonStringify b.input), .openChan .stdin, .openChan .stdout, .openChan .stderr]
  let closes : List Event := [.closeChan .stdin, .closeChan .stdout, .closeChan .stderr]
  let body : RunOutcome × List Event :=
    if linkOk (runJavyImportObject b.providerExports) b.guestImports then
      if b.initTraps then
        (trapOutcome b.stderrContent, [.instProvider, .instGuest, .initProvider, .readChan .stderr])
      else if b.startTraps then
        (trapOutcome b.stderrContent,
          [.instProvider, .instGuest, .initProvider, .guestStart, .readChan .stderr])
      else
        let out := readOutput b.stdoutContent
        let err := readOutput b.stderrContent
        ((if err.truthy then .appError err else .success out),
          [.instProvider, .instGuest, .initProvider, .guestStart,
            .readChan .stdout, .readChan .stderr])
    else (.linkError, [.instProvider])
  (body.fst, pre ++ body.snd ++ closes)

/-- The environment of one `run` invocation from `src/host.mjs`. -/
structure HostBehavior where
  input : JsonValue
  guestImports : List (String × String)
  wasiExports : List String
  providerExports : List String
  startTraps : Bool
  stdoutContent : String
  stderrContent : String

/-- The import object `src/host.mjs` instantiates the guest against:
the spread WASI import object plus the provider entry. -/
def hostGuestImportObject (wasiExports providerExports : List String) :
    List (String × List String) :=
  [(wasiNamespace, wasiExports), (providerNamespace, providerExports)]

/-- The `catch` branch of `src/host.mjs` for a `RuntimeError`: throw
`Error(stderr)` when the decoded stderr is truthy; otherwise the branch
falls through and `run` returns `undefined`. -/
def hostTrapOutcome (stderrContent : String) : RunOutcome :=
  let m := readOutput stderrContent
  if m.truthy then .sandboxFault (some m) else .noResult

/-- `run` from `src/host.mjs`: same channel setup as `runJavy`, modules
compiled inside the `try`, guest instantiated against the spread WASI
imports plus the provider entry, executed with the single `wasi.start`. -/
def hostRun (b : HostBehavior) : RunOutcome × List Event :=
  let pre : List Event :=
    [.writeInput (jsonStringify b.input), .openChan .stdin, .openChan .stdout, .openChan .stderr]
  let closes : List Event := [.closeChan .stdin, .closeChan .stdout, .closeChan .stderr]
  let body : RunOutcome × List Event :=
    if linkOk (hostGuestImportObject b.wasiExports b.providerExports) b.guestImports then
      if b.startTraps then
        (hostTrapOutcome b.stderrContent,
          [.compileGuest, .compileProvider, .instProvider, .instGuest, .wasiStart,
            .readChan .stderr])
      else
        let out := readOutput b.stdoutContent
        let err := readOutput b.stderrContent
        ((if err.truthy then .appError err else .success out),
          [.compileGuest, .compileProvider, .instProvider, .instGuest, .wasiStart,
            .readChan .stdout, .readChan .stderr])
    else (.linkError, [.compileGuest, .compileProvider, .instProvider])
  (body.fst, pre ++ body.snd ++ closes)

/-- The environment of one `run` invocation from `src/unnamed/part_001`
(a plain WASI command module, no provider). -/
structure P1Behavior where
  input : JsonValue
  guestImports : List (String × String)
  wasiExports : List String
  startTraps : Bool
  stdoutContent : String
  stderrContent : String

/-- The `catch` branch of `src/unnamed/part_001`, reached by any exception:
read stderr; throw `Error(message)` when its decoded value is truthy,
otherwise fall through and return `undefined`. -/
def p1CatchOutcome (stderrContent : String) : RunOutcome :=
  let m := readOutput stderrContent
  if m.truthy then .caught m else .noResult

/-- `run` from `src/unnamed/part_001`: open the channels (stdin in `a+`
mode, nothing written yet), compile and instantiate the module against the
WASI imports alone, write the serialized input, `wasi.start`, decode, apply
the `if (err) throw` check; the thrown `Error(err)` of the truthy case is
itself caught by the catch-all, which re-reads stderr. -/
def p1Run (b : P1Behavior) : RunOutcome × List Event :=
  let pre : List Event := [.openChan .stdin, .openChan .stdout, .openChan .stderr]
  let closes : List Event := [.closeChan .stdin, .closeChan .stdout, .closeChan .stderr]
  let written : Event := .writeInput (jsonStringify b.input)
  let body : RunOutcome × List Event :=
    if linkOk [(wasiNamespace, b.wasiExports)] b.guestImports then
      if b.startTraps then
        (p1CatchOutcome b.stderrContent,
          [.compileGuest, .instGuest, written, .wasiStart, .readChan .stderr])
      else
        let out := readOutput b.stdoutContent
        let err := readOutput b.stderrContent
        if err.truthy then
          (.caught err,
            [.compileGuest, .instGuest, written, .wasiStart,
              .readChan .stdout, .readChan .stderr, .readChan .stderr])
        else
          (.success out,
            [.compileGuest, .instGuest, written, .wasiStart,
              .readChan .stdout, .readChan .stderr])
    else (p1CatchOutcome b.stderrContent, [.compileGuest, .instGuest, .readChan .stderr])
  (body.fst, pre ++ body.snd ++ closes)

/-! ## Trace predicates -/

/-- Is this event an execution of sandbox code (one of the entry calls)? -/
def isInvoke : Event → Bool
  | .initProvider => true
  | .guestStart => true
  | .wasiStart => true
  | _ => false

/-- Is this event the input write? -/
def isWriteEvt : Event → Bool
  | .writeInput _ => true
  | _ => false

/-- Is this event a channel read? -/
def isReadEvt : Event → Bool
  | .readChan _ => true
  | _ => false

/-- Is this event the close of channel `c`? -/
def isCloseOf (c : Chan) : Event → Bool
  | .closeChan c' => c' == c
  | _ => false

/-- Is this event any channel close? -/
def isCloseEvt : Event → Bool
  | .closeChan _ => true
  | _ => false

/-- Scanner for `allBefore`: fails on a `p`-event at or after a `q`-event. -/
def allBeforeAux (p q : Event → Bool) : Bool → List Event → Bool
  | _, [] => true
  | seenQ, e :: tr => if seenQ && p e then false else allBeforeAux p q (seenQ || q e) tr

/-- Every `p`-event of the trace occurs strictly before every `q`-event. -/
def allBefore (p q : Event → Bool) (tr : List Event) : Bool :=
  allBeforeAux p q false tr

/-- Scanner for `invokeAfterWrite`. -/
def invokeAfterWriteAux : Bool → List Event → Bool
  | _, [] => true
  | seenW, e :: tr =>
    if isInvoke e && !seenW then false else invokeAfterWriteAux (seenW || isWriteEvt e) tr

/-- Every sandbox entry call is preceded by a completed input write. -/
def invokeAfterWrite (tr : List Event) : Bool := invokeAfterWriteAux false tr

/-- The ordering discipline of one invocation: input write strictly before
any sandbox entry call (and every entry call preceded by a write), entry
calls strictly before channel reads, and channel closes strictly after all
reads and writes. -/
def orderingOk (tr : List Event) : Bool :=
  allBefore isWriteEvt isInvoke tr && invokeAfterWrite tr &&
    allBefore isInvoke isReadEvt tr &&
    allBefore (fun e => isReadEvt e || isWriteEvt e) isCloseEvt tr

/-- Each of the three channel handles is closed exactly once. -/
def closedOnce (tr : List Event) : Bool :=
  tr.countP (isCloseOf .stdin) == 1 && tr.countP (isCloseOf .stdout) == 1 &&
    tr.countP (isCloseOf .stderr) == 1

/-- No sandbox code executes anywhere in the trace. -/
def noInvoke (tr : List Event) : Bool := tr.all fun e => !(isInvoke e)

/-! ## Digit and character-class lemmas -/

theorem charDigit_digitChar : ∀ d < 10, charDigit (digitChar d) = d := by decide

theorem isDigitC_digitChar : ∀ d < 10, isDigitC (digitChar d) = true := by decide

theorem digitChar_ne_zero : ∀ d < 10, 0 < d → (digitChar d == '0') = false := by decide

theorem hexVal_hexDigit : ∀ d < 16, hexVal (hexDigit d) = some d := by decide

/-- A digit character is unequal to any non-digit character. -/
theorem digit_beq_false {c : Char} (d : Char) (hd : isDigitC d = false)
    (hc : isDigitC c = true) : (c == d) = false := by
  refine beq_eq_false_iff_ne.mpr fun h => ?_
  subst h
  rw [hc] at hd
  exact Bool.noConfusion hd

/-- Digits lie outside the trim whitespace set. -/
theorem jsWs_false_of_digit {c : Char} (hc : isDigitC c = true) : isJsWsC c = false := by
  have ht : 48 ≤ c.toNat ∧ c.toNat ≤ 57 := by simpa [isDigitC] using hc
  simp only [isJsWsC, isJsonWsC, Bool.or_eq_false_iff, beq_eq_false_iff_ne]
  omega

/-- The token whitespace set is contained in the trim whitespace set. -/
theorem jsonWs_false_of_jsWs {c : Char} (h : isJsWsC c = false) : isJsonWsC c = false := by
  simp only [isJsWsC, Bool.or_eq_false_iff] at h
  exact h.1.1.1.1

/-- Digits lie outside the token whitespace set. -/
theorem jsonWs_false_of_digit {c : Char} (hc : isDigitC c = true) : isJsonWsC c = false :=
  jsonWs_false_of_jsWs (jsWs_false_of_digit hc)

/-! ## `digitsVal` lemmas -/

theorem digitsValFrom_eq (l : List Char) :
    ∀ acc, digitsValFrom acc l = acc * 10 ^ l.length + digitsVal l := by
  induction l with
  | nil => intro acc; simp [digitsValFrom, digitsVal]
  | cons c t ih =>
    intro acc
    have h1 : digitsValFrom acc (c :: t) = digitsValFrom (acc * 10 + charDigit c) t := rfl
    have h2 : digitsVal (c :: t) = digitsValFrom (charDigit c) t := by
      simp [digitsVal, digitsValFrom]
    rw [h1, h2, ih, ih (charDigit c)]
    simp only [List.length_cons, pow_succ]
    ring

theorem digitsVal_append (a b : List Char) :
    digitsVal (a ++ b) = digitsVal a * 10 ^ b.length + digitsVal b := by
  have h : digitsVal (a ++ b) = digitsValFrom (digitsVal a) b := by
    simp [digitsVal, digitsValFrom, List.foldl_append]
  rw [h, digitsValFrom_eq]

theorem digitsVal_replicate_zero (k : Nat) (l : List Char) :
    digitsVal (List.replicate k '0' ++ l) = digitsVal l := by
  induction k with
  | zero => simp
  | succ k ih =>
    have h : List.replicate (k + 1) '0' ++ l = '0' :: (List.replicate k '0' ++ l) := by
      simp [List.replicate_succ]
    rw [h]
    have h2 : digitsVal ('0' :: (List.replicate k '0' ++ l)) =
        digitsValFrom (charDigit '0') (List.replicate k '0' ++ l) := by
      simp [digitsVal, digitsValFrom]
    rw [h2]
    have h3 : charDigit '0' = 0 := rfl
    rw [h3]
    exact ih

/-! ## `natToChars` lemmas -/

theorem natToDigitsAux_val : ∀ fuel n, n ≤ fuel →
    digitsVal (natToDigitsAux fuel n).reverse = n := by
  intro fuel
  induction fuel with
  | zero => intro n hn; interval_cases n; rfl
  | succ f ih =>
    intro n hn
    by_cases h0 : n = 0
    · subst h0; rfl
    · have hrec : natToDigitsAux (f + 1) n = digitChar (n % 10) :: natToDigitsAux f (n / 10) := by
        simp [natToDigitsAux, h0]
      rw [hrec, List.reverse_cons, digitsVal_append]
      have hdiv : n / 10 ≤ f := by
        have := Nat.div_lt_self (Nat.pos_of_ne_zero h0) (by omega : 1 < 10)
        omega
      rw [ih (n / 10) hdiv]
      have hmod : digitsVal [digitChar (n % 10)] = n % 10 := by
        have h1 : digitsVal [digitChar (n % 10)] = charDigit (digitChar (n % 10)) := by
          simp [digitsVal, digitsValFrom]
        rw [h1, charDigit_digitChar _ (Nat.mod_lt n (by omega))]
      rw [hmod]
      simp
      omega

theorem natToDigitsAux_digits : ∀ fuel n c, c ∈ natToDigitsAux fuel n → isDigitC c = true := by
  intro fuel
  induction fuel with
  | zero => intro n c hc; simp [natToDigitsAux] at hc
  | succ f ih =>
    intro n c hc
    by_cases h0 : n = 0
    · subst h0; simp [natToDigitsAux] at hc
    · rw [show natToDigitsAux (f + 1) n = digitChar (n % 10) :: natToDigitsAux f (n / 10) by
        simp [natToDigitsAux, h0]] at hc
      rcases List.mem_cons.mp hc with h | h
      · subst h; exact isDigitC_digitChar _ (Nat.mod_lt n (by omega))
      · exact ih (n / 10) c h

theorem natToDigitsAux_last : ∀ fuel n, 0 < n → n ≤ fuel →
    ∃ l d, natToDigitsAux fuel n = l ++ [d] ∧ isDigitC d = true ∧ (d == '0') = false := by
  intro fuel
  induction fuel with
  | zero => intro n h1 h2; omega
  | succ f ih =>
    intro n h1 h2
    have hrec : natToDigitsAux (f + 1) n = digitChar (n % 10) :: natToDigitsAux f (n / 10) := by
      simp [natToDigitsAux, Nat.pos_iff_ne_zero.mp h1]
    by_cases hq : n / 10 = 0
    · have hn10 : n < 10 := by omega
      have htl : natToDigitsAux f (n / 10) = [] := by
        cases f <;> simp [natToDigitsAux, hq]
      refine ⟨[], digitChar (n % 10), ?_, ?_, ?_⟩
      · rw [hrec, htl]; rfl
      · exact isDigitC_digitChar _ (Nat.mod_lt n (by omega))
      · have : n % 10 = n := Nat.mod_eq_of_lt hn10
        rw [this]
        exact digitChar_ne_zero n hn10 h1
    · obtain ⟨l, d, hl, hd, hz⟩ := ih (n / 10) (Nat.pos_of_ne_zero hq)
        (by
          have := Nat.div_lt_self h1 (by omega : 1 < 10)
          omega)
      exact ⟨digitChar (n % 10) :: l, d, by rw [hrec, hl]; rfl, hd, hz⟩

theorem natToChars_ne_nil (n : Nat) : natToChars n ≠ [] := by
  by_cases h : n = 0
  · subst h; simp [natToChars]
  · simp only [natToChars, if_neg h]
    intro hc
    have h2 : natToDigitsAux (n + 1) n = [] := by
      have := congrArg List.reverse hc
      simpa using this
    have h3 : natToDigitsAux (n + 1) n = digitChar (n % 10) :: natToDigitsAux n (n / 10) := by
      simp [natToDigitsAux, h]
    rw [h3] at h2
    exact List.noConfusion h2

theorem digitsVal_natToChars (n : Nat) : digitsVal (natToChars n) = n := by
  by_cases h : n = 0
  · subst h; rfl
  · simp only [natToChars, if_neg h]
    exact natToDigitsAux_val (n + 1) n (by omega)

theorem natToChars_all_digits (n : Nat) : ∀ c ∈ natToChars n, isDigitC c = true := by
  intro c hc
  by_cases h : n = 0
  · subst h
    rw [show natToChars 0 = ['0'] from rfl, List.mem_singleton] at hc
    subst hc; rfl
  · simp only [natToChars, if_neg h, List.mem_reverse] at hc
    exact natToDigitsAux_digits (n + 1) n c hc

theorem natToChars_head (n : Nat) :
    ∃ c l, natToChars n = c :: l ∧ isDigitC c = true ∧ (0 < n → (c == '0') = false) := by
  by_cases h : n = 0
  · subst h; exact ⟨'0', [], rfl, rfl, by omega⟩
  · obtain ⟨l, d, hl, hd, hz⟩ := natToDigitsAux_last (n + 1) n (Nat.pos_of_ne_zero h) (by omega)
    refine ⟨d, l.reverse, ?_, hd, fun _ => hz⟩
    simp [natToChars, h, hl]

/-! ## `padDigits` lemmas -/

theorem padDigits_all (m e : Nat) : ∀ c ∈ padDigits m e, isDigitC c = true := by
  intro c hc
  rcases List.mem_append.mp hc with h | h
  · rw [List.eq_of_mem_replicate h]; rfl
  · exact natToChars_all_digits m c h

theorem padDigits_len (m e : Nat) : e + 1 ≤ (padDigits m e).length := by
  have h1 : 0 < (natToChars m).length :=
    List.length_pos.mpr (natToChars_ne_nil m)
  simp only [padDigits, List.length_append, List.length_replicate]
  omega

theorem padDigits_val (m e : Nat) : digitsVal (padDigits m e) = m := by
  rw [padDigits, digitsVal_replicate_zero, digitsVal_natToChars]

theorem padDigits_head_of_long (m e : Nat) (hk : 1 < (padDigits m e).length - e) :
    ∃ c l, padDigits m e = c :: l ∧ (c == '0') = false := by
  have hlen : e + 1 < (padDigits m e).length := by omega
  have hL : e + 1 < (natToChars m).length := by
    by_contra hc
    have h1 : (padDigits m e).length =
        (e + 1 - (natToChars m).length) + (natToChars m).length := by
      simp [padDigits]
    omega
  have hpad : e + 1 - (natToChars m).length = 0 := by omega
  have hm : m ≠ 0 := by
    intro h0
    subst h0
    simp [natToChars] at hL
  obtain ⟨c, l, hcl, _, hz⟩ := natToChars_head m
  refine ⟨c, l, ?_, hz (Nat.pos_of_ne_zero hm)⟩
  rw [padDigits, hpad, hcl]
  rfl

/-! ## Span and whitespace lemmas -/

theorem takeWhile_append_all {p : Char → Bool} :
    ∀ a b : List Char, (∀ c ∈ a, p c = true) → (∀ c, b.head? = some c → p c = false) →
      (a ++ b).takeWhile p = a := by
  intro a
  induction a with
  | nil =>
    intro b _ hb
    cases b with
    | nil => rfl
    | cons c t => simp [List.takeWhile_cons, hb c rfl]
  | cons c t ih =>
    intro b ha hb
    have hc : p c = true := ha c (List.mem_cons_self c t)
    simp only [List.cons_append, List.takeWhile_cons, hc, if_true]
    rw [ih b (fun x hx => ha x (List.mem_cons_of_mem c hx)) hb]

theorem dropWhile_append_all {p : Char → Bool} :
    ∀ a b : List Char, (∀ c ∈ a, p c = true) → (∀ c, b.head? = some c → p c = false) →
      (a ++ b).dropWhile p = b := by
  intro a
  induction a with
  | nil =>
    intro b _ hb
    cases b with
    | nil => rfl
    | cons c t => simp [List.dropWhile_cons, hb c rfl]
  | cons c t ih =>
    intro b ha hb
    have hc : p c = true := ha c (List.mem_cons_self c t)
    simp only [List.cons_append, List.dropWhile_cons, hc, if_true]
    exact ih b (fun x hx => ha x (List.mem_cons_of_mem c hx)) hb

theorem skipWs_cons_not_ws {c : Char} (l : List Char) (h : isJsonWsC c = false) :
    skipWs (c :: l) = c :: l := by
  simp [skipWs, h]

/-! ## `SafeRest` facts -/

theorem safeRest_nil : SafeRest [] := fun d hd => by simp at hd

theorem safeRest_cons {c : Char}
    (h : (isDigitC c || c == '.' || c == 'e' || c == 'E') = false) (r : List Char) :
    SafeRest (c :: r) := by
  intro d hd
  simp only [List.head?_cons, Option.some.injEq] at hd
  subst hd
  exact h

theorem safeRest_not_digit {c : Char} {r : List Char} (hr : SafeRest (c :: r)) :
    isDigitC c = false := by
  have h := hr c rfl
  simp only [Bool.or_eq_false_iff] at h
  exact h.1.1.1

theorem safeRest_serArrTail (a : JsonArray) (r : List Char) :
    SafeRest (serArrTail a ++ ']' :: r) := by
  cases a with
  | nil => exact safeRest_cons (by decide) r
  | cons v tl =>
    rw [serArrTail, List.cons_append]
    exact safeRest_cons (by decide) _

theorem safeRest_serObjTail (o : JsonObject) (r : List Char) :
    SafeRest (serObjTail o ++ '}' :: r) := by
  cases o with
  | nil => exact safeRest_cons (by decide) r
  | cons k v tl =>
    rw [serObjTail, List.cons_append]
    exact safeRest_cons (by decide) _

/-! ## Number parsing completeness -/

theorem parseExpTail_safe (neg : Bool) (m0 e0 : Nat) (r : List Char) (hr : SafeRest r) :
    parseExpTail neg m0 e0 r = some (mkJsonNumber neg m0 e0, r) := by
  cases r with
  | nil => rfl
  | cons c t =>
    have h := hr c rfl
    simp only [Bool.or_eq_false_iff] at h
    simp [parseExpTail, h.1.2, h.2]

theorem parseNumTail_safe (neg : Bool) (ids : List Char) (r : List Char) (hr : SafeRest r) :
    parseNumTail neg ids r = some (mkJsonNumber neg (digitsVal ids) 0, r) := by
  cases r with
  | nil => rfl
  | cons c t =>
    have h := hr c rfl
    simp only [Bool.or_eq_false_iff] at h
    simp [parseNumTail, h.1.1.2, parseExpTail, h.1.2, h.2]

theorem parseNumBody_natToChars (neg : Bool) (N : Nat) (r : List Char) (hr : SafeRest r) :
    parseNumBody neg (natToChars N ++ r) = some (mkJsonNumber neg N 0, r) := by
  have hdig := natToChars_all_digits N
  have hb : ∀ c, r.head? = some c → isDigitC c = false := by
    intro c hc
    have h := hr c hc
    simp only [Bool.or_eq_false_iff] at h
    exact h.1.1.1
  have htake : (natToChars N ++ r).takeWhile isDigitC = natToChars N :=
    takeWhile_append_all _ _ hdig hb
  have hdrop : (natToChars N ++ r).dropWhile isDigitC = r :=
    dropWhile_append_all _ _ hdig hb
  have hne : (natToChars N).isEmpty = false := by
    cases h : natToChars N with
    | nil => exact absurd h (natToChars_ne_nil N)
    | cons c t => rfl
  have hlz : (1 < (natToChars N).length && (natToChars N).head? == some '0') = false := by
    by_cases h0 : N = 0
    · subst h0
      rfl
    · obtain ⟨c, l, hcl, _, hz⟩ := natToChars_head N
      rw [hcl]
      simp only [List.head?_cons]
      have : ((some c == some '0') : Bool) = (c == '0') := rfl
      rw [this, hz (Nat.pos_of_ne_zero h0), Bool.and_false]
  rw [parseNumBody]
  simp only [htake, hdrop, hne, Bool.false_eq_true, if_false, hlz,
    parseNumTail_safe neg (natToChars N) r hr, digitsVal_natToChars]

theorem serPosDec_decomp (N e : Nat) :
    ∃ a0 A B, serPosDec N e = (a0 :: A) ++ '.' :: B ∧
      (∀ c ∈ a0 :: A, isDigitC c = true) ∧ (∀ c ∈ B, isDigitC c = true) ∧
      B.length = e ∧ digitsVal (a0 :: A) * 10 ^ e + digitsVal B = N ∧
      (1 < (a0 :: A).length → (a0 == '0') = false) := by
  have hPlen := padDigits_len N e
  have hPdig := padDigits_all N e
  set P := padDigits N e with hP
  set K := P.length - e with hK
  have hK1 : 1 ≤ K := by omega
  obtain ⟨p0, Pt, hPcons⟩ : ∃ p0 Pt, P = p0 :: Pt := by
    cases hc : P with
    | nil => rw [hc] at hPlen; simp at hPlen
    | cons x xs => exact ⟨x, xs, rfl⟩
  obtain ⟨k, hk⟩ : ∃ k, K = k + 1 := ⟨K - 1, by omega⟩
  have htakeK : P.take K = p0 :: Pt.take k := by
    rw [hPcons, hk, List.take_succ_cons]
  refine ⟨p0, Pt.take k, P.drop K, ?_, ?_, ?_, ?_, ?_, ?_⟩
  · rw [serPosDec, ← hP, ← hK, htakeK]
  · intro c hc
    rw [← htakeK] at hc
    exact hPdig c (List.take_subset K P hc)
  · intro c hc
    exact hPdig c (List.drop_subset K P hc)
  · rw [List.length_drop]
    omega
  · have hlenB : (P.drop K).length = e := by rw [List.length_drop]; omega
    rw [← htakeK, ← hlenB, ← digitsVal_append, List.take_append_drop]
    exact padDigits_val N e
  · intro hlong
    have hlenA : (P.take K).length = K := by
      rw [List.length_take]
      exact Nat.min_eq_left (by omega)
    have hKlong : 1 < K := by
      have h1 : (p0 :: Pt.take k).length = K := by rw [← htakeK, hlenA]
      rw [h1] at hlong
      exact hlong
    obtain ⟨c, l, hcl, hcz⟩ := padDigits_head_of_long N e (by rw [← hP]; omega)
    rw [← hP] at hcl
    rw [hPcons] at hcl
    have : p0 = c := (List.cons.injEq _ _ _ _ ▸ hcl).1
    rw [this]
    exact hcz

theorem parseNumBody_serPosDec (neg : Bool) (N e : Nat) (he : e ≠ 0) (r : List Char)
    (hr : SafeRest r) :
    parseNumBody neg (serPosDec N e ++ r) = some (mkJsonNumber neg N e, r) := by
  obtain ⟨a0, A, B, hdec, hAdig, hBdig, hBlen, hval, hlz⟩ := serPosDec_decomp N e
  have hb : ∀ c, ('.' :: (B ++ r)).head? = some c → isDigitC c = false := by
    intro c hc
    simp only [List.head?_cons, Option.some.injEq] at hc
    subst hc; rfl
  have hassoc : serPosDec N e ++ r = (a0 :: A) ++ ('.' :: (B ++ r)) := by
    rw [hdec]
    simp [List.append_assoc]
  have htake : ((a0 :: A) ++ ('.' :: (B ++ r))).takeWhile isDigitC = a0 :: A :=
    takeWhile_append_all _ _ hAdig hb
  have hdrop : ((a0 :: A) ++ ('.' :: (B ++ r))).dropWhile isDigitC = '.' :: (B ++ r) :=
    dropWhile_append_all _ _ hAdig hb
  have hbr : ∀ c, r.head? = some c → isDigitC c = false := by
    intro c hc
    have h := hr c hc
    simp only [Bool.or_eq_false_iff] at h
    exact h.1.1.1
  have hftake : (B ++ r).takeWhile isDigitC = B := takeWhile_append_all _ _ hBdig hbr
  have hfdrop : (B ++ r).dropWhile isDigitC = r := dropWhile_append_all _ _ hBdig hbr
  have hBne : B.isEmpty = false := by
    cases hB : B with
    | nil => rw [hB] at hBlen; simp at hBlen; omega
    | cons x xs => rfl
  have hlz2 : (1 < (a0 :: A).length && (a0 :: A).head? == some '0') = false := by
    by_cases hA : 1 < (a0 :: A).length
    · have h1 : (((a0 :: A).head? == some '0') : Bool) = (a0 == '0') := rfl
      rw [h1, hlz hA, Bool.and_false]
    · rw [decide_eq_false hA, Bool.false_and]
  rw [hassoc, parseNumBody]
  simp only [htake, hdrop, List.isEmpty_cons, Bool.false_eq_true, if_false, hlz2]
  rw [parseNumTail]
  simp only [show (('.' : Char) == '.') = true from rfl, if_true, hftake, hfdrop, hBne,
    Bool.false_eq_true, if_false, hBlen, hval]
  exact parseExpTail_safe neg N e r hr

theorem serPosDec_head (N e : Nat) :
    ∃ c l, serPosDec N e = c :: l ∧ isDigitC c = true := by
  obtain ⟨a0, A, B, hdec, hAdig, _, _, _, _⟩ := serPosDec_decomp N e
  exact ⟨a0, A ++ '.' :: B, by rw [hdec]; rfl, hAdig a0 (List.mem_cons_self _ _)⟩

theorem parseNumber_digit_head {c : Char} {l : List Char} (hc : isDigitC c = true) :
    parseNumber (c :: l) = parseNumBody false (c :: l) := by
  rw [parseNumber]
  simp [digit_beq_false '-' (by decide) hc]

theorem parseNumber_ser (n : JsonNumber) (r : List Char) (hr : SafeRest r) :
    parseNumber (serNum n ++ r) = some (n, r) := by
  obtain ⟨m, e⟩ := n
  by_cases he : e = 0
  · subst he
    have hser : serNum ⟨m, 0⟩ = intToChars m := rfl
    rw [hser]
    by_cases hm : m < 0
    · rw [show intToChars m = '-' :: natToChars m.natAbs by rw [intToChars, if_pos hm]]
      rw [List.cons_append, parseNumber]
      simp only [show (('-' : Char) == '-') = true from rfl, if_true]
      rw [parseNumBody_natToChars true m.natAbs r hr]
      have : mkJsonNumber true m.natAbs 0 = ⟨m, 0⟩ := by
        rw [mkJsonNumber]
        simp only [if_true]
        have : (m.natAbs : Int) = -m := Int.ofNat_natAbs_of_nonpos (by omega)
        rw [this]
        simp
      rw [this]
    · rw [show intToChars m = natToChars m.natAbs by rw [intToChars, if_neg hm]]
      obtain ⟨c, l, hcl, hcd, _⟩ := natToChars_head m.natAbs
      rw [hcl, List.cons_append, parseNumber_digit_head hcd, ← List.cons_append, ← hcl]
      rw [parseNumBody_natToChars false m.natAbs r hr]
      have : mkJsonNumber false m.natAbs 0 = ⟨m, 0⟩ := by
        rw [mkJsonNumber]
        rw [if_neg (by simp)]
        have : (m.natAbs : Int) = m := Int.natAbs_of_nonneg (by omega)
        rw [this]
      rw [this]
  · have hser : serNum ⟨m, e⟩ = (if m < 0 then ['-'] else []) ++ serPosDec m.natAbs e := by
      simp [serNum, he]
    rw [hser]
    by_cases hm : m < 0
    · rw [if_pos hm]
      rw [show (['-'] ++ serPosDec m.natAbs e) ++ r = '-' :: (serPosDec m.natAbs e ++ r) by simp]
      rw [parseNumber]
      simp only [show (('-' : Char) == '-') = true from rfl, if_true]
      rw [parseNumBody_serPosDec true m.natAbs e he r hr]
      have : mkJsonNumber true m.natAbs e = ⟨m, e⟩ := by
        rw [mkJsonNumber]
        simp only [if_true]
        have : (m.natAbs : Int) = -m := Int.ofNat_natAbs_of_nonpos (by omega)
        rw [this]
        simp
      rw [this]
    · rw [if_neg hm]
      rw [show ([] ++ serPosDec m.natAbs e) ++ r = serPosDec m.natAbs e ++ r by simp]
      obtain ⟨c, l, hcl, hcd⟩ := serPosDec_head m.natAbs e
      rw [hcl, List.cons_append, parseNumber_digit_head hcd, ← List.cons_append, ← hcl]
      rw [parseNumBody_serPosDec false m.natAbs e he r hr]
      have : mkJsonNumber false m.natAbs e = ⟨m, e⟩ := by
        rw [mkJsonNumber]
        have : (m.natAbs : Int) = m := Int.natAbs_of_nonneg (by omega)
        rw [if_neg (by simp)]
        rw [this]
      rw [this]

/-! ## String parsing completeness -/

theorem escapeChar_ne_nil (c : Char) : escapeChar c ≠ [] := by
  rw [escapeChar]
  repeat' split
  all_goals simp

theorem escBody_length (l : List Char) : l.length ≤ (escBody l).length := by
  induction l with
  | nil => simp [escBody]
  | cons c t ih =>
    have h1 : 0 < (escapeChar c).length := List.length_pos.mpr (escapeChar_ne_nil c)
    rw [escBody, List.length_append, List.length_cons]
    omega

theorem parseUEscape_hex (a b : Nat) (ha : a < 16) (hb : b < 16)
    (hcode : a * 16 + b < 55296) (X : List Char) :
    parseUEscape ('0' :: '0' :: hexDigit a :: hexDigit b :: X) =
      some (Char.ofNat (a * 16 + b), X) := by
  have h0 : hexVal '0' = some 0 := rfl
  have h4 : parseHex4 ('0' :: '0' :: hexDigit a :: hexDigit b :: X) = some (a * 16 + b, X) := by
    rw [parseHex4]
    simp only [h0, hexVal_hexDigit a ha, hexVal_hexDigit b hb]
    have : ((0 * 16 + 0) * 16 + a) * 16 + b = a * 16 + b := by ring
    rw [this]
  rw [parseUEscape, h4]
  simp [hcode]

theorem parseStringBody_esc (l : List Char) :
    ∀ fuel acc r, l.length < fuel →
      parseStringBody fuel acc (escBody l ++ '"' :: r) = some (⟨acc.reverse ++ l⟩, r) := by
  induction l with
  | nil =>
    intro fuel acc r hf
    obtain ⟨f, rfl⟩ : ∃ f, fuel = f + 1 := ⟨fuel - 1, by omega⟩
    rw [show escBody [] ++ '"' :: r = '"' :: r from rfl]
    rw [show parseStringBody (f + 1) acc ('"' :: r) = some (⟨acc.reverse⟩, r) from rfl]
    simp
  | cons c t ih =>
    intro fuel acc r hf
    obtain ⟨f, rfl⟩ : ∃ f, fuel = f + 1 := ⟨fuel - 1, by omega⟩
    have hft : t.length < f := by simp at hf; omega
    by_cases h1 : c = '"'
    · subst h1
      rw [show escBody ('"' :: t) ++ '"' :: r = '\\' :: '"' :: (escBody t ++ '"' :: r) by
        rw [escBody, show escapeChar '"' = ['\\', '"'] from rfl]; simp]
      rw [show ∀ X, parseStringBody (f + 1) acc ('\\' :: '"' :: X) =
        parseStringBody f ('"' :: acc) X from fun _ => rfl]
      rw [ih f ('"' :: acc) r hft]
      simp
    · by_cases h2 : c = '\\'
      · subst h2
        rw [show escBody ('\\' :: t) ++ '"' :: r = '\\' :: '\\' :: (escBody t ++ '"' :: r) by
          rw [escBody, show escapeChar '\\' = ['\\', '\\'] from rfl]; simp]
        rw [show ∀ X, parseStringBody (f + 1) acc ('\\' :: '\\' :: X) =
          parseStringBody f ('\\' :: acc) X from fun _ => rfl]
        rw [ih f ('\\' :: acc) r hft]
        simp
      · by_cases h3 : c = '\x08'
        · subst h3
          rw [show escBody ('\x08' :: t) ++ '"' :: r = '\\' :: 'b' :: (escBody t ++ '"' :: r) by
            rw [escBody, show escapeChar '\x08' = ['\\', 'b'] from rfl]; simp]
          rw [show ∀ X, parseStringBody (f + 1) acc ('\\' :: 'b' :: X) =
            parseStringBody f ('\x08' :: acc) X from fun _ => rfl]
          rw [ih f ('\x08' :: acc) r hft]
          simp
        · by_cases h4 : c = '\x09'
          · subst h4
            rw [show escBody ('\x09' :: t) ++ '"' :: r = '\\' :: 't' :: (escBody t ++ '"' :: r) by
              rw [escBody, show escapeChar '\x09' = ['\\', 't'] from rfl]; simp]
            rw [show ∀ X, parseStringBody (f + 1) acc ('\\' :: 't' :: X) =
              parseStringBody f ('\x09' :: acc) X from fun _ => rfl]
            rw [ih f ('\x09' :: acc) r hft]
            simp
          · by_cases h5 : c = '\x0a'
            · subst h5
              rw [show escBody ('\x0a' :: t) ++ '"' :: r =
                  '\\' :: 'n' :: (escBody t ++ '"' :: r) by
                rw [escBody, show escapeChar '\x0a' = ['\\', 'n'] from rfl]; simp]
              rw [show ∀ X, parseStringBody (f + 1) acc ('\\' :: 'n' :: X) =
                parseStringBody f ('\x0a' :: acc) X from fun _ => rfl]
              rw [ih f ('\x0a' :: acc) r hft]
              simp
            · by_cases h6 : c = '\x0c'
              · subst h6
                rw [show escBody ('\x0c' :: t) ++ '"' :: r =
                    '\\' :: 'f' :: (escBody t ++ '"' :: r) by
                  rw [escBody, show escapeChar '\x0c' = ['\\', 'f'] from rfl]; simp]
                rw [show ∀ X, parseStringBody (f + 1) acc ('\\' :: 'f' :: X) =
                  parseStringBody f ('\x0c' :: acc) X from fun _ => rfl]
                rw [ih f ('\x0c' :: acc) r hft]
                simp
              · by_cases h7 : c = '\x0d'
                · subst h7
                  rw [show escBody ('\x0d' :: t) ++ '"' :: r =
                      '\\' :: 'r' :: (escBody t ++ '"' :: r) by
                    rw [escBody, show escapeChar '\x0d' = ['\\', 'r'] from rfl]; simp]
                  rw [show ∀ X, parseStringBody (f + 1) acc ('\\' :: 'r' :: X) =
                    parseStringBody f ('\x0d' :: acc) X from fun _ => rfl]
                  rw [ih f ('\x0d' :: acc) r hft]
                  simp
                · have b1 : (c == '"') = false := beq_eq_false_iff_ne.mpr h1
                  have b2 : (c == '\\') = false := beq_eq_false_iff_ne.mpr h2
                  have b3 : (c == '\x08') = false := beq_eq_false_iff_ne.mpr h3
                  have b4 : (c == '\x09') = false := beq_eq_false_iff_ne.mpr h4
                  have b5 : (c == '\x0a') = false := beq_eq_false_iff_ne.mpr h5
                  have b6 : (c == '\x0c') = false := beq_eq_false_iff_ne.mpr h6
                  have b7 : (c == '\x0d') = false := beq_eq_false_iff_ne.mpr h7
                  by_cases hlt : c.toNat < 32
                  · have hesc : escapeChar c =
                        ['\\', 'u', '0', '0', hexDigit (c.toNat / 16), hexDigit (c.toNat % 16)] := by
                      rw [escapeChar]
                      simp only [b1, b2, b3, b4, b5, b6, b7, Bool.false_eq_true, if_false]
                      rw [if_pos hlt]
                    rw [show escBody (c :: t) ++ '"' :: r =
                        '\\' :: 'u' :: ('0' :: '0' :: hexDigit (c.toNat / 16) ::
                          hexDigit (c.toNat % 16) :: (escBody t ++ '"' :: r)) by
                      rw [escBody, hesc]; simp]
                    rw [show ∀ X, parseStringBody (f + 1) acc ('\\' :: 'u' :: X) =
                        (match parseUEscape X with
                         | some (ch, r3) => parseStringBody f (ch :: acc) r3
                         | none => none) from fun _ => rfl]
                    rw [parseUEscape_hex (c.toNat / 16) (c.toNat % 16)
                      (by omega) (by omega) (by omega) (escBody t ++ '"' :: r)]
                    rw [show c.toNat / 16 * 16 + c.toNat % 16 = c.toNat from by omega,
                      Char.ofNat_toNat]
                    show parseStringBody f (c :: acc) (escBody t ++ '"' :: r) = _
                    rw [ih f (c :: acc) r hft]
                    simp
                  · have hesc : escapeChar c = [c] := by
                      rw [escapeChar]
                      simp only [b1, b2, b3, b4, b5, b6, b7, Bool.false_eq_true, if_false]
                      rw [if_neg hlt]
                    rw [show escBody (c :: t) ++ '"' :: r = c :: (escBody t ++ '"' :: r) by
                      rw [escBody, hesc]; simp]
                    rw [show parseStringBody (f + 1) acc (c :: (escBody t ++ '"' :: r)) =
                        parseStringBody f (c :: acc) (escBody t ++ '"' :: r) by
                      rw [parseStringBody.eq_def]
                      simp only [b1, b2, Bool.false_eq_true, if_false]
                      rw [if_neg hlt]]
                    rw [ih f (c :: acc) r hft]
                    simp

/-- Completeness for a whole serialized string literal at the fuel the
parser call sites supply: after the opening quote, the parser recovers the
original string and stops at the closing quote. -/
theorem parseStringBody_serStr (s : String) (rest : List Char) :
    parseStringBody ((escBody s.data ++ '"' :: rest).length + 1) []
      (escBody s.data ++ '"' :: rest) = some (s, rest) := by
  have hf : s.data.length < (escBody s.data ++ '"' :: rest).length + 1 := by
    have := escBody_length s.data
    rw [List.length_append, List.length_cons]
    omega
  rw [parseStringBody_esc s.data _ [] rest hf]
  cases s
  rfl


/-! ## Serializer shape lemmas -/

theorem natToChars_last (n : Nat) :
    ∃ l c, natToChars n = l ++ [c] ∧ isDigitC c = true := by
  by_cases h : n = 0
  · subst h; exact ⟨[], '0', rfl, rfl⟩
  · have hrec : natToDigitsAux (n + 1) n = digitChar (n % 10) :: natToDigitsAux n (n / 10) := by
      simp [natToDigitsAux, h]
    refine ⟨(natToDigitsAux n (n / 10)).reverse, digitChar (n % 10), ?_,
      isDigitC_digitChar _ (Nat.mod_lt n (by omega))⟩
    rw [natToChars, if_neg h, hrec, List.reverse_cons]

theorem serPosDec_last (N e : Nat) (he : e ≠ 0) :
    ∃ l c, serPosDec N e = l ++ [c] ∧ isDigitC c = true := by
  obtain ⟨a0, A, B, hdec, _, hBdig, hBlen, _, _⟩ := serPosDec_decomp N e
  have hBne : B ≠ [] := by
    intro h0
    rw [h0] at hBlen
    simp at hBlen
    omega
  rcases List.eq_nil_or_concat B with h0 | ⟨Bl, bc, hB⟩
  · exact absurd h0 hBne
  · rw [List.concat_eq_append] at hB
    refine ⟨(a0 :: A) ++ '.' :: Bl, bc, ?_, hBdig bc (by rw [hB]; simp)⟩
    rw [hdec, hB]
    simp

theorem serNum_last (n : JsonNumber) :
    ∃ l c, serNum n = l ++ [c] ∧ isDigitC c = true := by
  obtain ⟨m, e⟩ := n
  by_cases he : e = 0
  · subst he
    have hser : serNum ⟨m, 0⟩ = intToChars m := rfl
    by_cases hm : m < 0
    · obtain ⟨l, c, hlc, hc⟩ := natToChars_last m.natAbs
      refine ⟨'-' :: l, c, ?_, hc⟩
      rw [hser, intToChars, if_pos hm, hlc]
      rfl
    · obtain ⟨l, c, hlc, hc⟩ := natToChars_last m.natAbs
      refine ⟨l, c, ?_, hc⟩
      rw [hser, intToChars, if_neg hm, hlc]
  · have hser : serNum ⟨m, e⟩ = (if m < 0 then ['-'] else []) ++ serPosDec m.natAbs e := by
      simp [serNum, he]
    obtain ⟨l, c, hlc, hc⟩ := serPosDec_last m.natAbs e he
    refine ⟨(if m < 0 then ['-'] else []) ++ l, c, ?_, hc⟩
    rw [hser, hlc, List.append_assoc]

theorem serNum_head (n : JsonNumber) :
    ∃ c l, serNum n = c :: l ∧ (isDigitC c = true ∨ c = '-') := by
  obtain ⟨m, e⟩ := n
  by_cases he : e = 0
  · subst he
    have hser : serNum ⟨m, 0⟩ = intToChars m := rfl
    by_cases hm : m < 0
    · exact ⟨'-', natToChars m.natAbs, by rw [hser, intToChars, if_pos hm], Or.inr rfl⟩
    · obtain ⟨c, l, hcl, hcd, _⟩ := natToChars_head m.natAbs
      exact ⟨c, l, by rw [hser, intToChars, if_neg hm, hcl], Or.inl hcd⟩
  · have hser : serNum ⟨m, e⟩ = (if m < 0 then ['-'] else []) ++ serPosDec m.natAbs e := by
      simp [serNum, he]
    by_cases hm : m < 0
    · refine ⟨'-', serPosDec m.natAbs e, ?_, Or.inr rfl⟩
      rw [hser, if_pos hm]
      rfl
    · obtain ⟨c, l, hcl, hcd⟩ := serPosDec_head m.natAbs e
      refine ⟨c, l, ?_, Or.inl hcd⟩
      rw [hser, if_neg hm, hcl]
      rfl

/-- The facts about a numeral's first character that drive the parser's
dispatch: not whitespace, not a delimiter or other token start, and
accepted by the number branch. -/
theorem numStart_facts {c : Char} (h : isDigitC c = true ∨ c = '-') :
    isJsWsC c = false ∧ (c == ']') = false ∧ (c == 'n') = false ∧ (c == 't') = false ∧
      (c == 'f') = false ∧ (c == '"') = false ∧ (c == '[') = false ∧ (c == '{') = false ∧
      (c == '-' || isDigitC c) = true := by
  rcases h with h | h
  · refine ⟨jsWs_false_of_digit h, digit_beq_false _ (by decide) h,
      digit_beq_false _ (by decide) h, digit_beq_false _ (by decide) h,
      digit_beq_false _ (by decide) h, digit_beq_false _ (by decide) h,
      digit_beq_false _ (by decide) h, digit_beq_false _ (by decide) h, ?_⟩
    rw [h, Bool.or_true]
  · subst h
    exact ⟨rfl, rfl, rfl, rfl, rfl, rfl, rfl, rfl, rfl⟩

theorem serVal_head (v : JsonValue) :
    ∃ c l, serVal v = c :: l ∧ isJsWsC c = false ∧ (c == ']') = false := by
  cases v with
  | null => exact ⟨'n', ['u', 'l', 'l'], rfl, rfl, rfl⟩
  | bool b =>
    cases b with
    | true => exact ⟨'t', ['r', 'u', 'e'], rfl, rfl, rfl⟩
    | false => exact ⟨'f', ['a', 'l', 's', 'e'], rfl, rfl, rfl⟩
  | num n =>
    obtain ⟨c, l, hcl, hc⟩ := serNum_head n
    obtain ⟨h1, h2, _⟩ := numStart_facts hc
    exact ⟨c, l, by rw [serVal, hcl], h1, h2⟩
  | str s => exact ⟨'"', escBody s.data ++ ['"'], by rw [serVal, serStr], rfl, rfl⟩
  | arr a =>
    cases a with
    | nil => exact ⟨'[', [']'], by rw [serVal]; try rfl, rfl, rfl⟩
    | cons v tl => exact ⟨'[', (serVal v ++ serArrTail tl) ++ [']'], by rw [serVal]; try rfl, rfl, rfl⟩
  | obj o =>
    cases o with
    | nil => exact ⟨'{', ['}'], by rw [serVal]; try rfl, rfl, rfl⟩
    | cons k v tl =>
      exact ⟨'{', (serStr k ++ ':' :: serVal v ++ serObjTail tl) ++ ['}'],
        by rw [serVal]; try rfl, rfl, rfl⟩

theorem serVal_last (v : JsonValue) :
    ∃ l c, serVal v = l ++ [c] ∧ isJsWsC c = false := by
  cases v with
  | null => exact ⟨['n', 'u', 'l'], 'l', rfl, rfl⟩
  | bool b =>
    cases b with
    | true => exact ⟨['t', 'r', 'u'], 'e', rfl, rfl⟩
    | false => exact ⟨['f', 'a', 'l', 's'], 'e', rfl, rfl⟩
  | num n =>
    obtain ⟨l, c, hlc, hc⟩ := serNum_last n
    exact ⟨l, c, by rw [serVal, hlc], jsWs_false_of_digit hc⟩
  | str s =>
    refine ⟨'"' :: escBody s.data, '"', ?_, rfl⟩
    rw [serVal, serStr]
    try rfl
  | arr a =>
    cases a with
    | nil => exact ⟨['['], ']', by rw [serVal]; try rfl, rfl⟩
    | cons v tl =>
      refine ⟨'[' :: (serVal v ++ serArrTail tl), ']', ?_, rfl⟩
      rw [serVal]
      try rfl
  | obj o =>
    cases o with
    | nil => exact ⟨['{'], '}', by rw [serVal]; try rfl, rfl⟩
    | cons k v tl =>
      refine ⟨'{' :: (serStr k ++ ':' :: serVal v ++ serObjTail tl), '}', ?_, rfl⟩
      rw [serVal]
      try rfl

theorem serVal_length_pos (v : JsonValue) : 0 < (serVal v).length := by
  obtain ⟨c, l, hcl, _⟩ := serVal_head v
  rw [hcl]
  simp

theorem skipWs_serVal (v : JsonValue) (r : List Char) :
    skipWs (serVal v ++ r) = serVal v ++ r := by
  obtain ⟨c, l, hcl, hws, _⟩ := serVal_head v
  rw [hcl, List.cons_append]
  exact skipWs_cons_not_ws _ (jsonWs_false_of_jsWs hws)

theorem trimChars_serVal (v : JsonValue) : trimChars (serVal v) = serVal v := by
  obtain ⟨c, l, hcl, hws, _⟩ := serVal_head v
  obtain ⟨l2, c2, hcl2, hws2⟩ := serVal_last v
  have h1 : (serVal v).dropWhile isJsWsC = serVal v := by
    rw [hcl]
    simp [List.dropWhile_cons, hws]
  have h2 : (serVal v).reverse.dropWhile isJsWsC = (serVal v).reverse := by
    rw [hcl2]
    simp [List.reverse_append, List.dropWhile_cons, hws2]
  rw [trimChars, h1, h2, List.reverse_reverse]

/-! ## Parser completeness for serialized values -/

theorem parseArrayBody_cons_step (f : Nat) (c : Char) (rest : List Char)
    (hws : isJsonWsC c = false) (hbr : (c == ']') = false) :
    parseArrayBody (f + 1) (c :: rest) =
      (match parseValue f (c :: rest) with
       | some (v, r1) =>
         (match parseMoreItems f r1 with
          | some (tl, r2) => some (JsonArray.cons v tl, r2)
          | none => none)
       | none => none) := by
  rw [parseArrayBody]
  rw [skipWs_cons_not_ws _ hws]
  simp only [hbr, Bool.false_eq_true, if_false]

theorem parseValue_num_step (f : Nat) (c : Char) (rest : List Char)
    (hws : isJsonWsC c = false) (h1 : (c == 'n') = false) (h2 : (c == 't') = false)
    (h3 : (c == 'f') = false) (h4 : (c == '"') = false) (h5 : (c == '[') = false)
    (h6 : (c == '{') = false) (h7 : (c == '-' || isDigitC c) = true) :
    parseValue (f + 1) (c :: rest) =
      (parseNumber (c :: rest)).map fun p => (JsonValue.num p.fst, p.snd) := by
  rw [parseValue]
  rw [skipWs_cons_not_ws _ hws]
  simp only [h1, h2, h3, h4, h5, h6, h7, Bool.false_eq_true, if_false, if_true]

mutual

theorem parseValue_ser (v : JsonValue) : ∀ fuel r, SafeRest r →
    2 * (serVal v).length ≤ fuel → parseValue fuel (serVal v ++ r) = some (v, r) := by
  cases v with
  | null =>
    intro fuel r _ hf
    have h4 : (serVal JsonValue.null).length = 4 := by decide
    obtain ⟨f, rfl⟩ : ∃ f, fuel = f + 1 := ⟨fuel - 1, by omega⟩
    rw [show serVal JsonValue.null = ['n', 'u', 'l', 'l'] from rfl]
    rfl
  | bool b =>
    intro fuel r _ hf
    cases b with
    | true =>
      have h4 : (serVal (JsonValue.bool true)).length = 4 := by decide
      obtain ⟨f, rfl⟩ : ∃ f, fuel = f + 1 := ⟨fuel - 1, by omega⟩
      rw [show serVal (JsonValue.bool true) = ['t', 'r', 'u', 'e'] from rfl]
      rfl
    | false =>
      have h4 : (serVal (JsonValue.bool false)).length = 5 := by decide
      obtain ⟨f, rfl⟩ : ∃ f, fuel = f + 1 := ⟨fuel - 1, by omega⟩
      rw [show serVal (JsonValue.bool false) = ['f', 'a', 'l', 's', 'e'] from rfl]
      rfl
  | num n =>
    intro fuel r hr hf
    obtain ⟨c, l, hcl, hstart⟩ := serNum_head n
    obtain ⟨hws, _, h1, h2, h3, h4, h5, h6, h7⟩ := numStart_facts hstart
    have hser : serVal (JsonValue.num n) = serNum n := by rw [serVal]
    have hpos : 0 < (serVal (JsonValue.num n)).length := serVal_length_pos _
    obtain ⟨f, rfl⟩ : ∃ f, fuel = f + 1 := ⟨fuel - 1, by omega⟩
    rw [hser, hcl, List.cons_append,
      parseValue_num_step f c (l ++ r) (jsonWs_false_of_jsWs hws) h1 h2 h3 h4 h5 h6 h7,
      ← List.cons_append, ← hcl, parseNumber_ser n r hr]
    rfl
  | str s =>
    intro fuel r _ hf
    have hpos : 0 < (serVal (JsonValue.str s)).length := serVal_length_pos _
    obtain ⟨f, rfl⟩ : ∃ f, fuel = f + 1 := ⟨fuel - 1, by omega⟩
    rw [show serVal (JsonValue.str s) ++ r = '"' :: (escBody s.data ++ '"' :: r) from by
      rw [serVal, serStr]; simp]
    rw [show parseValue (f + 1) ('"' :: (escBody s.data ++ '"' :: r)) =
        (parseStringBody ((escBody s.data ++ '"' :: r).length + 1) []
          (escBody s.data ++ '"' :: r)).map (fun p => (JsonValue.str p.fst, p.snd)) from rfl]
    rw [parseStringBody_serStr s r]
    rfl
  | arr a =>
    cases a with
    | nil =>
      intro fuel r _ hf
      have h2 : (serVal (JsonValue.arr JsonArray.nil)).length = 2 := by rw [serVal]; simp
      obtain ⟨f, rfl⟩ : ∃ f, fuel = f + 2 := ⟨fuel - 2, by omega⟩
      rw [show serVal (JsonValue.arr JsonArray.nil) = ['[', ']'] from by rw [serVal]]
      rfl
    | cons v tl =>
      intro fuel r _ hf
      rw [show serVal (JsonValue.arr (JsonArray.cons v tl)) =
          '[' :: ((serVal v ++ serArrTail tl) ++ [']']) from by rw [serVal]; simp] at hf ⊢
      simp only [List.length_cons, List.length_append] at hf
      obtain ⟨f, rfl⟩ : ∃ f, fuel = f + 2 := ⟨fuel - 2, by omega⟩
      rw [show ('[' :: ((serVal v ++ serArrTail tl) ++ [']'])) ++ r =
          '[' :: (serVal v ++ (serArrTail tl ++ ']' :: r)) from by simp]
      rw [show parseValue (f + 2) ('[' :: (serVal v ++ (serArrTail tl ++ ']' :: r))) =
          (parseArrayBody (f + 1) (serVal v ++ (serArrTail tl ++ ']' :: r))).map
            (fun p => (JsonValue.arr p.fst, p.snd)) from rfl]
      obtain ⟨c, l, hcl, hws, hbr⟩ := serVal_head v
      rw [hcl, List.cons_append,
        parseArrayBody_cons_step f c (l ++ (serArrTail tl ++ ']' :: r))
          (jsonWs_false_of_jsWs hws) hbr,
        ← List.cons_append, ← hcl,
        parseValue_ser v f (serArrTail tl ++ ']' :: r) (safeRest_serArrTail tl r) (by omega)]
      simp only [parseMoreItems_ser tl f r (by omega)]
      try rfl
  | obj o =>
    cases o with
    | nil =>
      intro fuel r _ hf
      have h2 : (serVal (JsonValue.obj JsonObject.nil)).length = 2 := by rw [serVal]; simp
      obtain ⟨f, rfl⟩ : ∃ f, fuel = f + 2 := ⟨fuel - 2, by omega⟩
      rw [show serVal (JsonValue.obj JsonObject.nil) = ['{', '}'] from by rw [serVal]]
      rfl
    | cons k v tl =>
      intro fuel r _ hf
      have hlen : 2 * ((serStr k).length + (serVal v).length + (serObjTail tl).length + 3) ≤
          fuel := by
        rw [show serVal (JsonValue.obj (JsonObject.cons k v tl)) =
            '{' :: (serStr k ++ ':' :: serVal v ++ serObjTail tl) ++ ['}'] from by
          rw [serVal]] at hf
        simp only [List.length_append, List.length_cons] at hf
        omega
      obtain ⟨f, rfl⟩ : ∃ f, fuel = f + 3 := ⟨fuel - 3, by omega⟩
      rw [show serVal (JsonValue.obj (JsonObject.cons k v tl)) ++ r =
          '{' :: '"' :: (escBody k.data ++ '"' ::
            (':' :: (serVal v ++ (serObjTail tl ++ '}' :: r)))) from by
        rw [serVal, serStr]; simp]
      rw [show parseValue (f + 3) ('{' :: '"' :: (escBody k.data ++ '"' ::
            (':' :: (serVal v ++ (serObjTail tl ++ '}' :: r))))) =
          (parseMember (f + 1) (escBody k.data ++ '"' ::
            (':' :: (serVal v ++ (serObjTail tl ++ '}' :: r))))).map
              (fun p => (JsonValue.obj p.fst, p.snd)) from rfl]
      rw [show parseMember (f + 1) (escBody k.data ++ '"' ::
            (':' :: (serVal v ++ (serObjTail tl ++ '}' :: r)))) =
          (match parseStringBody ((escBody k.data ++ '"' ::
              (':' :: (serVal v ++ (serObjTail tl ++ '}' :: r)))).length + 1) []
              (escBody k.data ++ '"' :: (':' :: (serVal v ++ (serObjTail tl ++ '}' :: r)))) with
           | some (k2, r1) =>
             (match skipWs r1 with
              | c :: r2 =>
                if c == ':' then
                  (match parseValue f r2 with
                   | some (v2, r3) =>
                     (match parseMoreMembers f r3 with
                      | some (tl2, r4) => some (JsonObject.cons k2 v2 tl2, r4)
                      | none => none)
                   | none => none)
                else none
              | [] => none)
           | none => none) from rfl]
      rw [parseStringBody_serStr k (':' :: (serVal v ++ (serObjTail tl ++ '}' :: r)))]
      simp only [show ∀ X : List Char, skipWs (':' :: X) = ':' :: X from fun _ => rfl]
      rw [show ((':' : Char) == ':') = true from rfl]
      simp only [if_true]
      rw [parseValue_ser v f (serObjTail tl ++ '}' :: r) (safeRest_serObjTail tl r) (by omega)]
      simp only [parseMoreMembers_ser tl f r (by omega)]
      try rfl

theorem parseMoreItems_ser (a : JsonArray) : ∀ fuel r,
    2 * (serArrTail a).length + 2 ≤ fuel →
    parseMoreItems fuel (serArrTail a ++ ']' :: r) = some (a, r) := by
  cases a with
  | nil =>
    intro fuel r hf
    obtain ⟨f, rfl⟩ : ∃ f, fuel = f + 1 := ⟨fuel - 1, by omega⟩
    rw [show serArrTail JsonArray.nil ++ ']' :: r = ']' :: r from rfl]
    rfl
  | cons v tl =>
    intro fuel r hf
    rw [show serArrTail (JsonArray.cons v tl) = ',' :: serVal v ++ serArrTail tl from by
      rw [serArrTail]] at hf ⊢
    simp only [List.length_cons, List.length_append] at hf
    obtain ⟨f, rfl⟩ : ∃ f, fuel = f + 1 := ⟨fuel - 1, by omega⟩
    rw [show ((',' :: serVal v ++ serArrTail tl) ++ ']' :: r : List Char) =
        ',' :: (serVal v ++ (serArrTail tl ++ ']' :: r)) from by simp]
    rw [show parseMoreItems (f + 1) (',' :: (serVal v ++ (serArrTail tl ++ ']' :: r))) =
        (match parseValue f (serVal v ++ (serArrTail tl ++ ']' :: r)) with
         | some (v2, r1) =>
           (match parseMoreItems f r1 with
            | some (tl2, r2) => some (JsonArray.cons v2 tl2, r2)
            | none => none)
         | none => none) from rfl]
    rw [parseValue_ser v f (serArrTail tl ++ ']' :: r) (safeRest_serArrTail tl r) (by omega)]
    simp only [parseMoreItems_ser tl f r (by omega)]
    try rfl

theorem parseMoreMembers_ser (o : JsonObject) : ∀ fuel r,
    2 * (serObjTail o).length + 2 ≤ fuel →
    parseMoreMembers fuel (serObjTail o ++ '}' :: r) = some (o, r) := by
  cases o with
  | nil =>
    intro fuel r hf
    obtain ⟨f, rfl⟩ : ∃ f, fuel = f + 1 := ⟨fuel - 1, by omega⟩
    rw [show serObjTail JsonObject.nil ++ '}' :: r = '}' :: r from rfl]
    rfl
  | cons k v tl =>
    intro fuel r hf
    rw [show serObjTail (JsonObject.cons k v tl) =
        ',' :: serStr k ++ ':' :: serVal v ++ serObjTail tl from by rw [serObjTail]] at hf ⊢
    rw [serStr] at hf
    simp only [List.length_cons, List.length_append] at hf
    obtain ⟨f, rfl⟩ : ∃ f, fuel = f + 2 := ⟨fuel - 2, by omega⟩
    rw [show ((',' :: serStr k ++ ':' :: serVal v ++ serObjTail tl) ++ '}' :: r : List Char) =
        ',' :: '"' :: (escBody k.data ++ '"' ::
          (':' :: (serVal v ++ (serObjTail tl ++ '}' :: r)))) from by
      rw [serStr]; simp]
    rw [show parseMoreMembers (f + 2) (',' :: '"' :: (escBody k.data ++ '"' ::
          (':' :: (serVal v ++ (serObjTail tl ++ '}' :: r))))) =
        parseMember (f + 1) (escBody k.data ++ '"' ::
          (':' :: (serVal v ++ (serObjTail tl ++ '}' :: r)))) from rfl]
    rw [show parseMember (f + 1) (escBody k.data ++ '"' ::
          (':' :: (serVal v ++ (serObjTail tl ++ '}' :: r)))) =
        (match parseStringBody ((escBody k.data ++ '"' ::
            (':' :: (serVal v ++ (serObjTail tl ++ '}' :: r)))).length + 1) []
            (escBody k.data ++ '"' :: (':' :: (serVal v ++ (serObjTail tl ++ '}' :: r)))) with
         | some (k2, r1) =>
           (match skipWs r1 with
            | c :: r2 =>
              if c == ':' then
                (match parseValue f r2 with
                 | some (v2, r3) =>
                   (match parseMoreMembers f r3 with
                    | some (tl2, r4) => some (JsonObject.cons k2 v2 tl2, r4)
                    | none => none)
                 | none => none)
              else none
            | [] => none)
         | none => none) from rfl]
    rw [parseStringBody_serStr k (':' :: (serVal v ++ (serObjTail tl ++ '}' :: r)))]
    simp only [show ∀ X : List Char, skipWs (':' :: X) = ':' :: X from fun _ => rfl]
    rw [show ((':' : Char) == ':') = true from rfl]
    simp only [if_true]
    rw [parseValue_ser v f (serObjTail tl ++ '}' :: r) (safeRest_serObjTail tl r) (by omega)]
    simp only [parseMoreMembers_ser tl f r (by omega)]
    try rfl

end

/-! ## The stringify/parse round trip -/

theorem jsonParse_stringify (v : JsonValue) : jsonParse (jsonStringify v) = some v := by
  have hdata : (jsonStringify v).data = serVal v := rfl
  rw [jsonParse, hdata]
  have hv : parseValue (2 * (serVal v).length + 2) (serVal v) = some (v, []) := by
    have h := parseValue_ser v (2 * (serVal v).length + 2) [] safeRest_nil (by omega)
    rwa [List.append_nil] at h
  rw [hv]
  rfl

theorem readOutput_stringify (v : JsonValue) : readOutput (jsonStringify v) = v := by
  have htrim : trimString (jsonStringify v) = jsonStringify v := by
    rw [trimString, show (jsonStringify v).data = serVal v from rfl, trimChars_serVal]
    rfl
  rw [readOutput, htrim, jsonParse_stringify]

/-! ## Path lemmas for `runJavy` -/

/-- On the non-trapping, successfully linked path, `runJavy` returns the
decoded output unless the decoded stderr is truthy, in which case it throws
`Error(err)`. -/
theorem runJavy_fst_normal (b : Behavior)
    (hl : linkOk (runJavyImportObject b.providerExports) b.guestImports = true)
    (hi : b.initTraps = false) (hs : b.startTraps = false) :
    (runJavy b).fst =
      if (readOutput b.stderrContent).truthy then .appError (readOutput b.stderrContent)
      else .success (readOutput b.stdoutContent) := by
  simp [runJavy, hl, hi, hs]

/-- On any trapping path of a successfully linked invocation, `runJavy`
lands in the `RuntimeError` branch of the `catch`. -/
theorem runJavy_fst_trap (b : Behavior)
    (hl : linkOk (runJavyImportObject b.providerExports) b.guestImports = true)
    (ht : b.initTraps = true ∨ b.startTraps = true) :
    (runJavy b).fst = trapOutcome b.stderrContent := by
  rcases ht with h | h
  · simp [runJavy, hl, h]
  · cases hi : b.initTraps
    · simp [runJavy, hl, hi, h]
    · simp [runJavy, hl, hi]

/-- `runJavy`'s guest import object resolves no namespace other than
`javy_quickjs_provider_v1`, so such an import makes the link check fail. -/
theorem linkOk_runJavy_false_of_other_namespace (pe : List String)
    (imports : List (String × String)) (ns nm : String)
    (hm : (ns, nm) ∈ imports) (hne : ns ≠ providerNamespace) :
    linkOk (runJavyImportObject pe) imports = false := by
  cases h : linkOk (runJavyImportObject pe) imports
  · rfl
  · have := List.all_eq_true.mp h (ns, nm) hm
    rw [runJavyImportObject] at this
    simp only [List.lookup, beq_eq_false_iff_ne.mpr hne] at this
    exact Bool.noConfusion this

/-! ## Claim theorems -/

/-- C1 (corrected): on an invocation where the sandbox returns control
without a trap, the failure is `ApplicationError` carrying the decoded
error-channel value — regardless of what sits in the output channel — when
that decoded value is truthy; mere non-emptiness of the error channel is
not enough (see the counterexample). -/
theorem javy_appError_of_truthy_stderr (b : Behavior)
    (hl : linkOk (runJavyImportObject b.providerExports) b.guestImports = true)
    (hi : b.initTraps = false) (hs : b.startTraps = false)
    (he : (readOutput b.stderrContent).truthy = true) :
    (runJavy b).fst = .appError (readOutput b.stderrContent) := by
  rw [runJavy_fst_normal b hl hi hs]
  simp [he]

/-- Behavior refuting C1 as stated: stderr holds the non-empty text `0`. -/
def bC1cex : Behavior := ⟨.null, [], [], false, false, "42", "0"⟩

/-- C1 counterexample: the sandbox returns without a trap and the error
channel is non-empty (`"0"`), yet the invocation succeeds and the decoded
output value is returned, because the decoded stderr value `0` is falsy. -/
theorem javy_stderr_nonempty_success_cex :
    bC1cex.stderrContent ≠ "" ∧ (runJavy bC1cex).fst = .success (.num ⟨42, 0⟩) :=
  ⟨by decide, rfl⟩

/-- Witness for C1: a truthy stderr text (`"oops"`) produces the
`ApplicationError` outcome. -/
def bC1w : Behavior := ⟨.null, [], [], false, false, "[1]", "oops"⟩

/-- C1 witness at a concrete behavior. -/
theorem javy_appError_of_truthy_stderr_wit :
    (runJavy bC1w).fst = .appError (readOutput bC1w.stderrContent) :=
  javy_appError_of_truthy_stderr bC1w rfl rfl rfl rfl

/-- C2 (amended): whenever the sandboxed execution traps, the reported
failure is `SandboxFault` — never `ApplicationError`, whatever the error
channel holds; the decoded error-channel value is attached as the message
when it is truthy, and otherwise the fault carries no message (so non-empty
contents decoding to a falsy value are dropped, see the counterexample). -/
theorem javy_trap_sandboxFault (b : Behavior)
    (hl : linkOk (runJavyImportObject b.providerExports) b.guestImports = true)
    (ht : b.initTraps = true ∨ b.startTraps = true) :
    (runJavy b).fst =
      .sandboxFault (if (readOutput b.stderrContent).truthy
        then some (readOutput b.stderrContent) else none) := by
  rw [runJavy_fst_trap b hl ht]
  cases h : (readOutput b.stderrContent).truthy <;> simp [trapOutcome, h]

/-- Behavior refuting C2's message clause: a trap with stderr text `0`. -/
def bC2cex : Behavior := ⟨.null, [], [], false, true, "", "0"⟩

/-- C2 counterexample: the sandbox traps and the error channel has contents
(`"0"`), yet the reported `SandboxFault` carries no message, because the
decoded contents are falsy. -/
theorem javy_trap_message_dropped_cex :
    bC2cex.stderrContent ≠ "" ∧ (runJavy bC2cex).fst = .sandboxFault none :=
  ⟨by decide, rfl⟩

/-- Witness behavior for C2: a trap during `wasi.initialize` with stderr
text `boom`. -/
def bC2w : Behavior := ⟨.null, [], [], true, false, "", "boom"⟩

/-- C2 witness at a concrete behavior. -/
theorem javy_trap_sandboxFault_wit :
    (runJavy bC2w).fst =
      .sandboxFault (if (readOutput bC2w.stderrContent).truthy
        then some (readOutput bC2w.stderrContent) else none) :=
  javy_trap_sandboxFault bC2w rfl (Or.inl rfl)

/-- Trap-with-empty-stderr behavior for `src/host.mjs`. -/
def hbC3 : HostBehavior := ⟨.null, [], [], [], true, "42", ""⟩

/-- Trap-with-empty-stderr behavior for `src/unnamed/part_001`. -/
def pbC3 : P1Behavior := ⟨.null, [], [], true, "", ""⟩

/-- C3 (code bug in the cited variants): when the sandbox traps and the
error channel is empty, `run` of `src/host.mjs` and `run` of
`src/unnamed/part_001` return `undefined` — the caller gets neither a
decoded value nor a failure value — where the claim (implemented correctly
by `runJavy`'s unconditional rethrow) requires a `SandboxFault` carrying no
message. -/
theorem trap_empty_stderr_returns_no_result :
    (hostRun hbC3).fst = .noResult ∧ (p1Run pbC3).fst = .noResult :=
  ⟨rfl, rfl⟩

/-- C4 (confirmed): `readOutput` trims the contents and attempts JSON
decoding; a successful decode yields the structured value (the text ` 200`
becomes the number 200, not a string), and a failed decode yields the
trimmed raw text verbatim instead of an error. -/
theorem readOutput_decodes_or_falls_back :
    (∀ s, readOutput s =
      match jsonParse (trimString s) with
      | some v => v
      | none => .str (trimString s)) ∧
    readOutput " 200\n" = .num ⟨200, 0⟩ ∧
    jsonParse (trimString "not json") = none ∧
    readOutput "not json" = .str "not json" :=
  ⟨fun _ => rfl, rfl, rfl, rfl⟩

/-- C5 (confirmed): serializing any JSON value with `JSON.stringify` (as
`writeInput` does to the input channel) and decoding it back with
`readOutput` (trim, then `JSON.parse`) yields a structurally equal value;
hence an echo guest — one that copies the serialized input to its output
channel and writes nothing to its error channel — produces a decoded output
equal to the invocation's input. -/
theorem stringify_readOutput_roundTrip :
    (∀ v : JsonValue, readOutput (jsonStringify v) = v) ∧
    ∀ b : Behavior, b.stdoutContent = jsonStringify b.input →
      b.stderrContent = "" →
      linkOk (runJavyImportObject b.providerExports) b.guestImports = true →
      b.initTraps = false → b.startTraps = false →
      (runJavy b).fst = .success b.input := by
  refine ⟨readOutput_stringify, fun b hout he hl hi hs => ?_⟩
  rw [runJavy_fst_normal b hl hi hs, he]
  rw [if_neg (by rw [show (readOutput "").truthy = false from rfl]; simp)]
  rw [hout, readOutput_stringify]

/-- The echo behavior at the repository's own example input `{ n: 100 }`. -/
def bC5w : Behavior :=
  ⟨.obj (.cons "n" (.num ⟨100, 0⟩) .nil), [], [], false, false,
    jsonStringify (.obj (.cons "n" (.num ⟨100, 0⟩) .nil)), ""⟩

/-- C5 witness at a concrete behavior. -/
theorem stringify_readOutput_roundTrip_wit :
    (runJavy bC5w).fst = .success bC5w.input :=
  stringify_readOutput_roundTrip.2 bC5w rfl rfl rfl rfl rfl

/-- C6 (confirmed): in all three variants, on every execution path, the
input write strictly precedes every sandbox entry call (and every entry
call has a completed input write before it), entry calls strictly precede
the channel reads, and the channel closes strictly follow all reads and
writes. -/
theorem invocation_ordering (b : Behavior) (pb : P1Behavior) (hb : HostBehavior) :
    orderingOk (runJavy b).snd = true ∧ orderingOk (p1Run pb).snd = true ∧
      orderingOk (hostRun hb).snd = true := by
  refine ⟨?_, ?_, ?_⟩
  · cases hl : linkOk (runJavyImportObject b.providerExports) b.guestImports <;>
      cases hi : b.initTraps <;> cases hs : b.startTraps <;>
      simp [runJavy, hl, hi, hs, orderingOk, allBefore, allBeforeAux, invokeAfterWrite,
        invokeAfterWriteAux, isInvoke, isWriteEvt, isReadEvt, isCloseEvt]
  · cases hl : linkOk [(wasiNamespace, pb.wasiExports)] pb.guestImports <;>
      cases hs : pb.startTraps <;>
      cases ht : (readOutput pb.stderrContent).truthy <;>
      simp [p1Run, hl, hs, ht, orderingOk, allBefore, allBeforeAux, invokeAfterWrite,
        invokeAfterWriteAux, isInvoke, isWriteEvt, isReadEvt, isCloseEvt]
  · cases hl : linkOk (hostGuestImportObject hb.wasiExports hb.providerExports) hb.guestImports <;>
      cases hs : hb.startTraps <;>
      simp [hostRun, hl, hs, orderingOk, allBefore, allBeforeAux, invokeAfterWrite,
        invokeAfterWriteAux, isInvoke, isWriteEvt, isReadEvt, isCloseEvt]

/-- C7 (confirmed): in `runJavy`, `src/host.mjs` and `src/unnamed/part_001`
alike, every invocation — success, classified error, or fault at any stage
after the channels were opened — closes each of the three channel handles
exactly once before returning (the `finally` block runs on every path). -/
theorem channels_closed_once (b : Behavior) (pb : P1Behavior) (hb : HostBehavior) :
    closedOnce (runJavy b).snd = true ∧ closedOnce (p1Run pb).snd = true ∧
      closedOnce (hostRun hb).snd = true := by
  refine ⟨?_, ?_, ?_⟩
  · cases hl : linkOk (runJavyImportObject b.providerExports) b.guestImports <;>
      cases hi : b.initTraps <;> cases hs : b.startTraps <;>
      simp [runJavy, hl, hi, hs, closedOnce, isCloseOf, List.countP_cons, List.countP_append]
  · cases hl : linkOk [(wasiNamespace, pb.wasiExports)] pb.guestImports <;>
      cases hs : pb.startTraps <;>
      cases ht : (readOutput pb.stderrContent).truthy <;>
      simp [p1Run, hl, hs, ht, closedOnce, isCloseOf, List.countP_cons, List.countP_append]
  · cases hl : linkOk (hostGuestImportObject hb.wasiExports hb.providerExports) hb.guestImports <;>
      cases hs : hb.startTraps <;>
      simp [hostRun, hl, hs, closedOnce, isCloseOf, List.countP_cons, List.countP_append]

/-- C8 (amended): `runJavy` instantiates the guest against an import table
with exactly one compound entry, `javy_quickjs_provider_v1` mapped to the
provider instance's exports, so a guest import from any other namespace —
or one the provider does not export — fails with `LinkError` before any
sandbox code executes.  In the `src/host.mjs` variant the table additionally
contains the spread WASI import object (see the counterexample), and there
only imports satisfied by neither entry fail with `LinkError`, still before
any sandbox code executes. -/
theorem link_validation :
    (∀ pe, runJavyImportObject pe = [(providerNamespace, pe)]) ∧
    (∀ b : Behavior, linkOk (runJavyImportObject b.providerExports) b.guestImports = false →
      (runJavy b).fst = .linkError ∧ noInvoke (runJavy b).snd = true) ∧
    (∀ (b : Behavior) (ns nm : String), (ns, nm) ∈ b.guestImports → ns ≠ providerNamespace →
      (runJavy b).fst = .linkError ∧ noInvoke (runJavy b).snd = true) ∧
    (∀ hb : HostBehavior,
      linkOk (hostGuestImportObject hb.wasiExports hb.providerExports) hb.guestImports = false →
      (hostRun hb).fst = .linkError ∧ noInvoke (hostRun hb).snd = true) := by
  refine ⟨fun _ => rfl, ?_, ?_, ?_⟩
  · intro b h
    constructor
    · simp [runJavy, h]
    · simp [runJavy, h, noInvoke, isInvoke, isWriteEvt]
  · intro b ns nm hm hne
    have h := linkOk_runJavy_false_of_other_namespace b.providerExports b.guestImports ns nm hm hne
    constructor
    · simp [runJavy, h]
    · simp [runJavy, h, noInvoke, isInvoke, isWriteEvt]
  · intro hb h
    constructor
    · simp [hostRun, h]
    · simp [hostRun, h, noInvoke, isInvoke, isWriteEvt]

/-- A host.mjs guest importing only from the WASI namespace. -/
def hbC8 : HostBehavior := ⟨.null, [(wasiNamespace, "fd_write")], ["fd_write"], ["realloc"], false, "", ""⟩

/-- C8 counterexample: in `src/host.mjs` the guest's import table is not
the single provider entry — it also carries the WASI namespace — and a
guest whose imports name a namespace different from
`javy_quickjs_provider_v1` instantiates and runs successfully instead of
failing with `LinkError`. -/
theorem host_import_table_cex :
    (hostGuestImportObject hbC8.wasiExports hbC8.providerExports).map Prod.fst ≠
      [providerNamespace] ∧
    wasiNamespace ≠ providerNamespace ∧
    hbC8.guestImports = [(wasiNamespace, "fd_write")] ∧
    (hostRun hbC8).fst = .success (.str "") :=
  ⟨by decide, by decide, rfl, rfl⟩

/-- A runJavy guest with a WASI-namespace import, which the provider-only
table cannot satisfy. -/
def bC8w : Behavior := ⟨.null, [("wasi_snapshot_preview1", "random_get")], [], false, false, "", ""⟩

/-- C8 witness at a concrete behavior. -/
theorem link_validation_wit :
    (runJavy bC8w).fst = .linkError ∧ noInvoke (runJavy bC8w).snd = true :=
  link_validation.2.2.1 bC8w "wasi_snapshot_preview1" "random_get" (by decide) (by decide)

/-- C9 (confirmed): the error channel is decoded exactly like the output
channel before the check, so an invocation that returns without a trap and
whose non-empty error text decodes to a falsy value (`0`, `false`, `null`,
`""`) is classified as a success and the decoded output value is
returned. -/
theorem javy_falsy_stderr_success (b : Behavior)
    (hl : linkOk (runJavyImportObject b.providerExports) b.guestImports = true)
    (hi : b.initTraps = false) (hs : b.startTraps = false)
    (_hne : b.stderrContent ≠ "")
    (hf : (readOutput b.stderrContent).truthy = false) :
    (runJavy b).fst = .success (readOutput b.stdoutContent) := by
  rw [runJavy_fst_normal b hl hi hs]
  simp [hf]

/-- Witness behavior for C9: stderr `0`, stdout `"ok"`. -/
def bC9w : Behavior := ⟨.null, [], [], false, false, "\"ok\"", "0"⟩

/-- C9 witness at a concrete behavior. -/
theorem javy_falsy_stderr_success_wit :
    (runJavy bC9w).fst = .success (readOutput bC9w.stdoutContent) :=
  javy_falsy_stderr_success bC9w rfl rfl rfl (by decide) rfl

/-- C10 (confirmed): when the sandbox returns without trapping and both
channels are empty, the invocation succeeds and the decoded result is the
empty string — the trim-then-parse fallback of empty content — not `null`
and not a failure. -/
theorem javy_empty_channels_success (b : Behavior)
    (hl : linkOk (runJavyImportObject b.providerExports) b.guestImports = true)
    (hi : b.initTraps = false) (hs : b.startTraps = false)
    (ho : b.stdoutContent = "") (he : b.stderrContent = "") :
    (runJavy b).fst = .success (.str "") := by
  rw [runJavy_fst_normal b hl hi hs, ho, he]
  rfl

/-- Witness behavior for C10: both channels empty. -/
def bC10w : Behavior := ⟨.null, [], [], false, false, "", ""⟩

/-- C10 witness at a concrete behavior. -/
theorem javy_empty_channels_success_wit :
    (runJavy bC10w).fst = .success (.str "") :=
  javy_empty_channels_success bC10w rfl rfl rfl rfl rfl

end JavyBridge
